import Mathlib

/-!
# Mood tracker: entry store and aggregation engine

A shallow embedding of the data layer of `src/src/App.jsx` (the `MoodTracker`
component): the entry store (`isFirstEntryToday`, `addEntry`,
`getEntriesForDate`, `getDatesWithEntries`), the medication registry, the
persistence effects, the aggregation engine (`getTimeRangeData`), the export
filter (`getFilteredEntries`) and the reminder handlers.

Modelling conventions.

* An instant (`new Date()`, `Date.now()`, an ISO `timestamp` string) is the
  integer number of milliseconds since the epoch.  `new Date(a) - new Date(b)`
  is integer subtraction.
* A calendar date (`toISOString().split('T')[0]`) is the integer number of the
  UTC day.  Equality of ISO date strings is equality of day numbers and
  `new Date(a.fullDate) - new Date(b.fullDate)` orders them as the day numbers.
* `Array.prototype.sort` is a stable sort; it is modelled by insertion sort,
  which is stable for the comparators used here.
* A JavaScript number is an IEEE-754 double, held as the rational number it
  denotes; `+` and `/` return the double nearest to the exact result
  (`toDouble`; infinities and NaN are not modelled).
* The text of a `type="number"` input is either empty or the text of a number:
  it is `Option ℚ`, `none` being the empty string.
* `addEntry` takes one instant for the clock reads made during a call;
  `addEntryReads` takes the three reads apart.
* The time zone enters `getTimeRangeData` through the two offsets of local
  time from UTC that it has at `now` and at the start of the window.
* ISO date strings (`YYYY-MM-DD`, years 0000 to 9999) compare as strings, with
  `>=`, `<=` and `localeCompare`, in the order of their day numbers; `HH:MM`
  time strings compare with `localeCompare` in the order of their minutes.
* A handler reads the state variables of the render that created it: a call
  of a state setter changes what the next render sees, not what the running
  handler reads.
-/

namespace MoodTracker

/-! ## Data model -/

/-- Milliseconds in one day. -/
def msPerDay : Int := 86400000

/-- The date part of `toISOString()`: the UTC day number of an instant. -/
def isoDate (instant : Int) : Int := instant / msPerDay

/-- The `HH:MM` prefix of `toTimeString()`, as minutes since local midnight;
`tz` is the offset of local time from UTC in minutes. -/
def localTime (tz : Int) (instant : Int) : Int := (instant / 60000 + tz) % 1440

/-- The characters that `String.prototype.trim` removes: the white space and
line terminator code points of ECMAScript. -/
def isJsWhitespace (c : Char) : Bool :=
  c.toNat = 0x9 || c.toNat = 0xA || c.toNat = 0xB || c.toNat = 0xC || c.toNat = 0xD ||
  c.toNat = 0x20 || c.toNat = 0xA0 || c.toNat = 0x1680 ||
  (0x2000 ≤ c.toNat && c.toNat ≤ 0x200A) ||
  c.toNat = 0x2028 || c.toNat = 0x2029 || c.toNat = 0x202F || c.toNat = 0x205F ||
  c.toNat = 0x3000 || c.toNat = 0xFEFF

/-- `String.prototype.trim` on the characters of a string. -/
def trimChars (cs : List Char) : List Char :=
  (cs.dropWhile isJsWhitespace).rdropWhile isJsWhitespace

/-- `String.prototype.trim`. -/
def jsTrim (text : String) : String := String.mk (trimChars text.data)

/-- An optional numeric property of a record: not present on the object
(`undefined` when read), present and `null`, or present with a number. -/
inductive Field where
  | absent : Field
  | null : Field
  | num (q : ℚ) : Field
deriving DecidableEq

/-- One stored observation record, as built in `addEntry`. -/
structure MoodEntry where
  id : Int
  date : Int
  time : Int
  timestamp : Int
  anxiety : Int
  irritability : Int
  depressedMood : Int
  elevatedMood : Int
  energy : Int
  notes : String
  medications : List String
  sleep : Field
  weight : Field
deriving DecidableEq

/-- One record of the medication registry. -/
structure Medication where
  id : Int
  name : String
deriving DecidableEq

/-- The component state that the data layer reads and writes, together with
the two `localStorage` keys that mirror the collections (`none`: key not set). -/
structure AppState where
  entries : List MoodEntry
  medications : List Medication
  saveStatus : String
  anxiety : Int
  irritability : Int
  depressedMood : Int
  elevatedMood : Int
  energy : Int
  notes : String
  sleep : Option ℚ
  weight : Option ℚ
  selectedMeds : List Int
  newMedName : String
  storedEntries : Option (List MoodEntry)
  storedMeds : Option (List Medication)

/-- The state of a freshly mounted component with empty storage. -/
def AppState.initial : AppState :=
  { entries := [], medications := [], saveStatus := "",
    anxiety := 5, irritability := 5, depressedMood := 5, elevatedMood := 5, energy := 5,
    notes := "", sleep := none, weight := none, selectedMeds := [], newMedName := "",
    storedEntries := none, storedMeds := none }

/-! ## Persistence effects -/

/-- The effect on `[entries]`: writes the collection when it is not empty. -/
def persistEntries (s : AppState) : AppState :=
  if s.entries.length > 0 then { s with storedEntries := some s.entries } else s

/-- The effect on `[medications]`: writes the registry when it is not empty. -/
def persistMeds (s : AppState) : AppState :=
  if s.medications.length > 0 then { s with storedMeds := some s.medications } else s

/-- `showSaveMessage`: sets the status line. -/
def showSaveMessage (s : AppState) (message : String) : AppState :=
  { s with saveStatus := message }

/-! ## Entry store -/

/-- `isFirstEntryToday`: no stored entry has the date of the clock's instant. -/
def isFirstEntryToday (entries : List MoodEntry) (clock : Int) : Bool :=
  !entries.any (fun e => decide (e.date = isoDate clock))

/-- The two rejections of `addEntry`. -/
inductive ValidationError where
  | sleepOutOfRange : ValidationError
  | negativeWeight : ValidationError
deriving DecidableEq

/-- The status message shown for a rejection. -/
def ValidationError.message : ValidationError → String
  | .sleepOutOfRange => "Sleep must be between 0-24 hours"
  | .negativeWeight => "Weight cannot be negative"

/-- The guards at the head of `addEntry`, in their order:
`sleep && (parseFloat(sleep) < 0 || parseFloat(sleep) > 24)`, then
`weight && parseFloat(weight) < 0`. -/
def validate (sleep weight : Option ℚ) : Option ValidationError :=
  if (match sleep with
      | some v => decide (v < 0) || decide (v > 24)
      | none => false) then some .sleepOutOfRange
  else if (match weight with
      | some v => decide (v < 0)
      | none => false) then some .negativeWeight
  else none

/-- The value stored for an input text: `text ? parseFloat(text) : null`. -/
def parseOrNull : Option ℚ → Field
  | some v => .num v
  | none => .null

/-- Truthiness of the result of `medications.find(...)?.name`: `undefined` and
the empty string are falsy. -/
def truthyName : Option String → Bool
  | some n => decide (n ≠ "")
  | none => false

/-- The `medications` property of a new entry:
`selectedMeds.map(id => medications.find(m => m.id === id)?.name).filter(Boolean)`. -/
def resolveMedications (medications : List Medication) (selectedMeds : List Int) :
    List String :=
  ((selectedMeds.map (fun id =>
      (medications.find? (fun m => decide (m.id = id))).map Medication.name)).filter
    truthyName).filterMap id

/-- The object literal `newEntry` of `addEntry`. -/
def newEntry (s : AppState) (now : Int) (tz : Int) : MoodEntry :=
  { id := now,
    date := isoDate now,
    time := localTime tz now,
    timestamp := now,
    anxiety := s.anxiety,
    irritability := s.irritability,
    depressedMood := s.depressedMood,
    elevatedMood := s.elevatedMood,
    energy := s.energy,
    notes := jsTrim s.notes,
    medications := resolveMedications s.medications s.selectedMeds,
    sleep := if isFirstEntryToday s.entries now then parseOrNull s.sleep else .absent,
    weight := if isFirstEntryToday s.entries now then parseOrNull s.weight else .absent }

/-- The comparator `(a, b) => new Date(b.timestamp) - new Date(a.timestamp)`
puts `a` no later than `b` when `b.timestamp ≤ a.timestamp`. -/
def newestFirst (a b : MoodEntry) : Prop := b.timestamp ≤ a.timestamp

instance : DecidableRel newestFirst := fun a b => Int.decLe b.timestamp a.timestamp

/-- `addEntry`: the handler run at instant `now` in a time zone `tz` minutes
ahead of UTC, followed by the effects its state change triggers. -/
def addEntry (s : AppState) (now : Int) (tz : Int) : AppState :=
  match validate s.sleep s.weight with
  | some err => showSaveMessage s err.message
  | none =>
    persistEntries
      { s with
        entries := (s.entries ++ [newEntry s now tz]).insertionSort newestFirst,
        anxiety := 5, irritability := 5, depressedMood := 5, elevatedMood := 5, energy := 5,
        notes := "", sleep := none, weight := none, selectedMeds := [],
        saveStatus := "Entry saved!" }

/-- The form contents and the clock at one press of the save button. -/
structure EntryCall where
  now : Int
  tz : Int
  anxiety : Int
  irritability : Int
  depressedMood : Int
  elevatedMood : Int
  energy : Int
  notes : String
  sleep : Option ℚ
  weight : Option ℚ
  selectedMeds : List Int

/-- The form setters (`setAnxiety`, ..., `setSleep`, `setWeight`,
`toggleMedSelection`) bringing the form to the contents of a call. -/
def fillForm (s : AppState) (c : EntryCall) : AppState :=
  { s with
    anxiety := c.anxiety, irritability := c.irritability, depressedMood := c.depressedMood,
    elevatedMood := c.elevatedMood, energy := c.energy, notes := c.notes,
    sleep := c.sleep, weight := c.weight, selectedMeds := c.selectedMeds }

/-- One `addEntry` call: the form is filled, then the handler runs. -/
def submit (s : AppState) (c : EntryCall) : AppState :=
  addEntry (fillForm s c) c.now c.tz

/-- A sequence of `addEntry` calls, in call order. -/
def runCalls (s : AppState) (calls : List EntryCall) : AppState :=
  calls.foldl submit s

/-- The object literal `newEntry` with the clock reads of the call apart:
`now` is the `new Date()` of the handler, `idClock` the `Date.now()` of the
`id`, `today` the `new Date()` inside `isFirstEntryToday`. -/
def newEntryReads (s : AppState) (now idClock today : Int) (tz : Int) : MoodEntry :=
  { id := idClock,
    date := isoDate now,
    time := localTime tz now,
    timestamp := now,
    anxiety := s.anxiety,
    irritability := s.irritability,
    depressedMood := s.depressedMood,
    elevatedMood := s.elevatedMood,
    energy := s.energy,
    notes := jsTrim s.notes,
    medications := resolveMedications s.medications s.selectedMeds,
    sleep := if isFirstEntryToday s.entries today then parseOrNull s.sleep else .absent,
    weight := if isFirstEntryToday s.entries today then parseOrNull s.weight else .absent }

/-- `addEntry` with the clock reads of the call apart. -/
def addEntryReads (s : AppState) (now idClock today : Int) (tz : Int) : AppState :=
  match validate s.sleep s.weight with
  | some err => showSaveMessage s err.message
  | none =>
    persistEntries
      { s with
        entries :=
          (s.entries ++ [newEntryReads s now idClock today tz]).insertionSort newestFirst,
        anxiety := 5, irritability := 5, depressedMood := 5, elevatedMood := 5, energy := 5,
        notes := "", sleep := none, weight := none, selectedMeds := [],
        saveStatus := "Entry saved!" }

/-- One `addEntry` call with its clock reads: `call.now` is the read of the
handler, `idClock` the read of the `id`, `today` the read inside
`isFirstEntryToday`. -/
structure TimedCall where
  call : EntryCall
  idClock : Int
  today : Int

/-- One call with its clock reads: the form is filled, then the handler runs. -/
def submitReads (s : AppState) (c : TimedCall) : AppState :=
  addEntryReads (fillForm s c.call) c.call.now c.idClock c.today c.call.tz

/-- A sequence of calls with their clock reads, in call order. -/
def runReads (s : AppState) (calls : List TimedCall) : AppState :=
  calls.foldl submitReads s

/-- A call whose three clock reads return the instant `call.now`. -/
def atOneInstant (c : EntryCall) : TimedCall :=
  { call := c, idClock := c.now, today := c.now }

/-- An entry carries a morning log value: its `sleep` or its `weight` is a number. -/
def carriesMorningLog (e : MoodEntry) : Bool :=
  (match e.sleep with
   | .num _ => true
   | _ => false) ||
  (match e.weight with
   | .num _ => true
   | _ => false)

/-- The names of the selected medications as the specification words them:
walk the selected ids in order, emit the name of the registry record with
that id, skip an id that has no record. -/
def resolveBySpec (medications : List Medication) : List Int → List String
  | [] => []
  | id :: rest =>
    match medications.find? (fun m => decide (m.id = id)) with
    | some m => m.name :: resolveBySpec medications rest
    | none => resolveBySpec medications rest

/-! ## Aggregation engine -/

/-- The time ranges of the trends view. -/
inductive TimeRange where
  | day : TimeRange
  | week : TimeRange
  | month : TimeRange
  | year : TimeRange
  | all : TimeRange
deriving DecidableEq

/-- The table `ranges` of `getTimeRangeData`: the window in days. -/
def ranges : TimeRange → Int
  | .day => 1
  | .week => 7
  | .month => 30
  | .year => 365
  | .all => 99999

/-- One value of the object `grouped`, keyed by its `date`. -/
structure DayGroup where
  date : Int
  anxiety : List Int
  irritability : List Int
  depressed : List Int
  elevated : List Int
  energy : List Int
  sleep : Option ℚ
  weight : Option ℚ
deriving DecidableEq

/-- The expression `x || null` on an optional numeric property: a number
other than zero is kept, everything else becomes `null` (`none`). -/
def orNull : Field → Option ℚ
  | .num q => if q = 0 then none else some q
  | _ => none

/-- The five `push` calls on the group of an entry. -/
def pushRatings (e : MoodEntry) (g : DayGroup) : DayGroup :=
  { g with
    anxiety := g.anxiety ++ [e.anxiety],
    irritability := g.irritability ++ [e.irritability],
    depressed := g.depressed ++ [e.depressedMood],
    elevated := g.elevated ++ [e.elevatedMood],
    energy := g.energy ++ [e.energy] }

/-- The body of `filteredEntries.forEach`: `grouped` is an object whose keys
keep their insertion order, modelled as the list of its values. -/
def groupStep (grouped : List DayGroup) (e : MoodEntry) : List DayGroup :=
  let grouped1 :=
    if grouped.any (fun g => decide (g.date = e.date)) then grouped
    else grouped ++
      [{ date := e.date, anxiety := [], irritability := [], depressed := [], elevated := [],
         energy := [], sleep := orNull e.sleep, weight := orNull e.weight }]
  grouped1.map (fun g => if g.date = e.date then pushRatings e g else g)

/-- One element of the sequence returned by `getTimeRangeData`; the display
label `date` is a rendering of `fullDate` and is not modelled. -/
structure DayMetric where
  fullDate : Int
  anxiety : ℚ
  irritability : ℚ
  depressed : ℚ
  elevated : ℚ
  energy : ℚ
  sleep : Option ℚ
  weight : Option ℚ
deriving DecidableEq

/-- The integer nearest to `x`, a tie going to the even one. -/
def roundHalfEven (x : ℚ) : Int :=
  if x - ⌊x⌋ < 1 / 2 then ⌊x⌋
  else if 1 / 2 < x - ⌊x⌋ then ⌊x⌋ + 1
  else if ⌊x⌋ % 2 = 0 then ⌊x⌋
  else ⌊x⌋ + 1

/-- The binary exponent of the unit in the last place of the doubles around
`q`: 52 below the exponent of `q`, and -1074 for a subnormal. -/
def ulpExponent (q : ℚ) : Int := max (Int.log 2 |q| - 52) (-1074)

/-- The IEEE-754 double nearest to an exact result `q` (round to nearest, ties
to even), for results below `2 ^ 1024` in magnitude. -/
def toDouble (q : ℚ) : ℚ := (roundHalfEven (q / 2 ^ ulpExponent q) : ℚ) * 2 ^ ulpExponent q

/-- The operator `+` on two numbers. -/
def addDouble (a b : ℚ) : ℚ := toDouble (a + b)

/-- The operator `/` on two numbers. -/
def divDouble (a b : ℚ) : ℚ := toDouble (a / b)

/-- The expression `xs.reduce((a, b) => a + b, 0) / xs.length` on a list of
integer ratings. -/
def average (xs : List Int) : ℚ :=
  divDouble (xs.foldl (fun (a : ℚ) (b : Int) => addDouble a (b : ℚ)) 0) (xs.length : ℚ)

/-- The object built from a group by the `map` of `getTimeRangeData`. -/
def toMetric (g : DayGroup) : DayMetric :=
  { fullDate := g.date,
    anxiety := average g.anxiety,
    irritability := average g.irritability,
    depressed := average g.depressed,
    elevated := average g.elevated,
    energy := average g.energy,
    sleep := g.sleep, weight := g.weight }

/-- The comparator `(a, b) => new Date(a.fullDate) - new Date(b.fullDate)`. -/
def oldestDayFirst (a b : DayMetric) : Prop := a.fullDate ≤ b.fullDate

instance : DecidableRel oldestDayFirst := fun a b => Int.decLe a.fullDate b.fullDate

/-- The cutoff `startDate` after `startDate.setDate(startDate.getDate() -
ranges[timeRange])`: `setDate` moves the local calendar date and keeps the
local time of day, so the result is the local time `now + tzaNow` less that
many days, read back as an instant.  `tzaNow` and `tzaStart` are the offsets
of local time from UTC, in milliseconds, that the time zone has at `now` and
at the resulting local time; they differ when a daylight-saving change lies
between the two. -/
def cutoff (timeRange : TimeRange) (now tzaNow tzaStart : Int) : Int :=
  now + tzaNow - ranges timeRange * msPerDay - tzaStart

/-- The selection `entries.filter(e => new Date(e.timestamp) >= startDate)`. -/
def inWindow (timeRange : TimeRange) (now tzaNow tzaStart : Int) (entries : List MoodEntry) :
    List MoodEntry :=
  entries.filter (fun e => decide (cutoff timeRange now tzaNow tzaStart ≤ e.timestamp))

/-- `getTimeRangeData` for the selected time range, evaluated at instant `now`
in a time zone with the offsets `tzaNow` and `tzaStart`. -/
def getTimeRangeData (entries : List MoodEntry) (timeRange : TimeRange)
    (now tzaNow tzaStart : Int) : List DayMetric :=
  (((inWindow timeRange now tzaNow tzaStart entries).foldl groupStep []).map
    toMetric).insertionSort oldestDayFirst

/-- The in-window entries of one date, in store order. -/
def dayEntries (timeRange : TimeRange) (now tzaNow tzaStart : Int) (entries : List MoodEntry)
    (d : Int) : List MoodEntry :=
  (inWindow timeRange now tzaNow tzaStart entries).filter (fun e => decide (e.date = d))

/-! ## Entry store: queries -/

/-- The comparator `(a, b) => a.time.localeCompare(b.time)`. -/
def earliestTimeFirst (a b : MoodEntry) : Prop := a.time ≤ b.time

instance : DecidableRel earliestTimeFirst := fun a b => Int.decLe a.time b.time

/-- `getEntriesForDate`. -/
def getEntriesForDate (entries : List MoodEntry) (date : Int) : List MoodEntry :=
  (entries.filter (fun e => decide (e.date = date))).insertionSort earliestTimeFirst

/-- The spread of `new Set(xs)`: the distinct values in the order of their
first occurrence. -/
def setValues (xs : List Int) : List Int :=
  xs.foldl (fun seen x => if x ∈ seen then seen else seen ++ [x]) []

/-- The comparator `(a, b) => b.localeCompare(a)` on dates. -/
def latestDateFirst (a b : Int) : Prop := b ≤ a

instance : DecidableRel latestDateFirst := fun a b => Int.decLe b a

/-- `getDatesWithEntries`. -/
def getDatesWithEntries (entries : List MoodEntry) : List Int :=
  (setValues (entries.map MoodEntry.date)).insertionSort latestDateFirst

/-! ## Export filter -/

/-- `getFilteredEntries`; a bound is `none` when its input text is empty. -/
def getFilteredEntries (entries : List MoodEntry) (exportStartDate exportEndDate : Option Int) :
    List MoodEntry :=
  if exportStartDate.isNone && exportEndDate.isNone then entries
  else
    entries.filter (fun entry =>
      let afterStart :=
        match exportStartDate with
        | none => true
        | some start => decide (entry.date ≥ start)
      let beforeEnd :=
        match exportEndDate with
        | none => true
        | some stop => decide (entry.date ≤ stop)
      afterStart && beforeEnd)

/-! ## Medication registry -/

/-- `addMedication` at instant `now`, followed by the effect on `[medications]`;
a string is truthy when it is not empty. -/
def addMedication (s : AppState) (now : Int) : AppState :=
  if jsTrim s.newMedName ≠ "" then
    persistMeds
      (showSaveMessage
        { s with
          medications := s.medications ++ [{ id := now, name := jsTrim s.newMedName }],
          newMedName := "" }
        "Medication added")
  else s

/-- `removeMedication`, followed by the effect on `[medications]`. -/
def removeMedication (s : AppState) (id : Int) : AppState :=
  persistMeds
    (showSaveMessage
      { s with medications := s.medications.filter (fun m => decide (m.id ≠ id)) }
      "Medication removed")

/-! ## Reminders -/

/-- The part of the component state that the reminder handlers read and
write, the status line apart: the state variables, the `localStorage` key `moodTrackerReminders`, and
the values handed to `OneSignal.User.addTag("reminder_times", ·)`, oldest first. -/
structure ReminderState where
  reminderTimes : List String
  newReminderTime : String
  notificationsEnabled : Bool
  storedReminders : Option (List String)
  sentTags : List String

/-- The state of a freshly mounted component with empty storage. -/
def ReminderState.initial : ReminderState :=
  { reminderTimes := ["09:00", "14:00", "19:00"], newReminderTime := "",
    notificationsEnabled := false, storedReminders := none, sentTags := [] }

/-- `scheduleNotifications` as created by the render with state `render`:
the function it pushes hands `reminderTimes.join(',')` to the collaborator,
`reminderTimes` being the state variable of that render; `pending` collects
the effects of the running handler.  `window.OneSignalDeferred` is defined by
`public/onesignal-config.js`. -/
def scheduleNotifications (render pending : ReminderState) : ReminderState :=
  { pending with sentTags := pending.sentTags ++ [String.intercalate "," render.reminderTimes] }

/-- Lexicographic comparison of two character sequences by code. -/
def codesLe : List Char → List Char → Bool
  | [], _ => true
  | _ :: _, [] => false
  | a :: as, b :: bs =>
    if a.toNat < b.toNat then true
    else if b.toNat < a.toNat then false
    else codesLe as bs

/-- The default comparator of `Array.prototype.sort` on strings: the
lexicographic order of the code units (characters of the basic plane). -/
def stringOrder (a b : String) : Prop := codesLe a.data b.data = true

instance : DecidableRel stringOrder := fun a b =>
  inferInstanceAs (Decidable (codesLe a.data b.data = true))

/-- `addReminderTime`, created by the render with state `s`. -/
def addReminderTime (s : ReminderState) : ReminderState :=
  if s.newReminderTime ≠ "" ∧ ¬ s.newReminderTime ∈ s.reminderTimes then
    let updated := (s.reminderTimes ++ [s.newReminderTime]).insertionSort stringOrder
    let pending : ReminderState :=
      { s with reminderTimes := updated, storedReminders := some updated, newReminderTime := "" }
    if s.notificationsEnabled then scheduleNotifications s pending else pending
  else s

/-- `removeReminderTime`, created by the render with state `s`. -/
def removeReminderTime (s : ReminderState) (time : String) : ReminderState :=
  let updated := s.reminderTimes.filter (fun t => decide (t ≠ time))
  let pending : ReminderState :=
    { s with reminderTimes := updated, storedReminders := some updated }
  if s.notificationsEnabled then scheduleNotifications s pending else pending

/-! ## Definitions used by the statements -/

instance : IsTotal MoodEntry newestFirst := ⟨fun a b => Int.le_total b.timestamp a.timestamp⟩

instance : IsTrans MoodEntry newestFirst := ⟨fun _ _ _ hab hbc => Int.le_trans hbc hab⟩

instance : IsTotal DayMetric oldestDayFirst := ⟨fun a b => Int.le_total a.fullDate b.fullDate⟩

instance : IsTrans DayMetric oldestDayFirst := ⟨fun _ _ _ hab hbc => Int.le_trans hab hbc⟩

/-- The group that the loop of `getTimeRangeData` holds for date `d` after
it has visited the entries `visited`: the ratings of the entries of that
date in visiting order, and the `sleep`/`weight` read off the first of them. -/
def groupOf (visited : List MoodEntry) (d : Int) : DayGroup :=
  { date := d,
    anxiety := (visited.filter (fun x => decide (x.date = d))).map MoodEntry.anxiety,
    irritability := (visited.filter (fun x => decide (x.date = d))).map MoodEntry.irritability,
    depressed := (visited.filter (fun x => decide (x.date = d))).map MoodEntry.depressedMood,
    elevated := (visited.filter (fun x => decide (x.date = d))).map MoodEntry.elevatedMood,
    energy := (visited.filter (fun x => decide (x.date = d))).map MoodEntry.energy,
    sleep := ((visited.find? (fun x => decide (x.date = d))).map
      (fun x => orNull x.sleep)).join,
    weight := ((visited.find? (fun x => decide (x.date = d))).map
      (fun x => orNull x.weight)).join }

/-- Two calls at the same instant. -/
def tieCalls : List EntryCall :=
  [{ now := 1000, tz := 0, anxiety := 5, irritability := 5, depressedMood := 5,
     elevatedMood := 5, energy := 5, notes := "", sleep := none, weight := none,
     selectedMeds := [] },
   { now := 1000, tz := 0, anxiety := 6, irritability := 5, depressedMood := 5,
     elevatedMood := 5, energy := 5, notes := "", sleep := none, weight := none,
     selectedMeds := [] }]

/-- Two calls on one day, each supplying a sleep value. -/
def sameDayCalls : List EntryCall :=
  [{ now := 1000, tz := 0, anxiety := 4, irritability := 5, depressedMood := 5,
     elevatedMood := 5, energy := 5, notes := "", sleep := some 8, weight := none,
     selectedMeds := [] },
   { now := 2000, tz := 0, anxiety := 8, irritability := 5, depressedMood := 5,
     elevatedMood := 5, energy := 5, notes := "", sleep := some 6, weight := none,
     selectedMeds := [] }]

/-- One call with a sleep value and a weight of zero. -/
def zeroSleepCalls : List EntryCall :=
  [{ now := 1000, tz := 0, anxiety := 4, irritability := 5, depressedMood := 5,
     elevatedMood := 5, energy := 5, notes := "", sleep := some 0, weight := some 0,
     selectedMeds := [] }]

/-- Ten calls, one at noon UTC of each of ten consecutive days. -/
def tenDayCalls : List EntryCall :=
  (List.range 10).map (fun i =>
    { now := (i : Int) * 86400000 + 43200000, tz := 0, anxiety := 5, irritability := 5,
      depressedMood := 5, elevatedMood := 5, energy := 5, notes := "", sleep := none,
      weight := none, selectedMeds := [] })

instance : IsTotal MoodEntry earliestTimeFirst := ⟨fun a b => Int.le_total a.time b.time⟩

instance : IsTrans MoodEntry earliestTimeFirst := ⟨fun _ _ _ hab hbc => Int.le_trans hab hbc⟩

instance : IsTotal Int latestDateFirst := ⟨fun a b => Int.le_total b a⟩

instance : IsTrans Int latestDateFirst := ⟨fun _ _ _ hab hbc => Int.le_trans hbc hab⟩

/-- The day number of the ISO date `y-m-d` (proleptic Gregorian calendar),
day 0 being 1970-01-01. -/
def isoDay (y m d : Int) : Int :=
  let y1 := if m ≤ 2 then y - 1 else y
  let era := y1 / 400
  let yoe := y1 - era * 400
  let mp := (m + 9) % 12
  let doy := (153 * mp + 2) / 5 + d - 1
  let doe := yoe * 365 + yoe / 4 - yoe / 100 + doy
  era * 146097 + doe - 719468

/-- An entry with a given date and time, the other properties fixed. -/
def entryOn (date time : Int) : MoodEntry :=
  { id := 0, date := date, time := time, timestamp := 0, anxiety := 5, irritability := 5,
    depressedMood := 5, elevatedMood := 5, energy := 5, notes := "", medications := [],
    sleep := .absent, weight := .absent }

/-- The initial state after the medication " Lithium " was added at instant 1. -/
def oneMedState : AppState :=
  addMedication { AppState.initial with newMedName := " Lithium " } 1

/-- The state `oneMedState` after an entry was saved with that medication
selected, at instant 1000. -/
def medEntryState : AppState :=
  addEntry { oneMedState with selectedMeds := [1] } 1000 0

/-- The initial reminder state with notifications enabled. -/
def enabledReminders : ReminderState :=
  { ReminderState.initial with notificationsEnabled := true }

/-- The five ratings of an entry lie in the range of the data model, 1 to 10. -/
def ratingsInRange (e : MoodEntry) : Bool :=
  decide (1 ≤ e.anxiety ∧ e.anxiety ≤ 10) && decide (1 ≤ e.irritability ∧ e.irritability ≤ 10) &&
  decide (1 ≤ e.depressedMood ∧ e.depressedMood ≤ 10) &&
  decide (1 ≤ e.elevatedMood ∧ e.elevatedMood ≤ 10) && decide (1 ≤ e.energy ∧ e.energy ≤ 10)

/-- Three calls on one day with anxiety 4, 5 and 5. -/
def threeCalls : List EntryCall :=
  [{ now := 1000, tz := 0, anxiety := 4, irritability := 5, depressedMood := 5,
     elevatedMood := 5, energy := 5, notes := "", sleep := none, weight := none,
     selectedMeds := [] },
   { now := 2000, tz := 0, anxiety := 5, irritability := 5, depressedMood := 5,
     elevatedMood := 5, energy := 5, notes := "", sleep := none, weight := none,
     selectedMeds := [] },
   { now := 3000, tz := 0, anxiety := 5, irritability := 5, depressedMood := 5,
     elevatedMood := 5, energy := 5, notes := "", sleep := none, weight := none,
     selectedMeds := [] }]

/-- One call at noon UTC of day 0. -/
def noonCall : List EntryCall :=
  [{ now := 43200000, tz := 0, anxiety := 5, irritability := 5, depressedMood := 5,
     elevatedMood := 5, energy := 5, notes := "", sleep := none, weight := none,
     selectedMeds := [] }]

/-- Nine calls on nine consecutive days: at 23:45 UTC of day 0, at noon of
days 1 to 7, and at 00:15 of day 8. -/
def nineDayCalls : List EntryCall :=
  ([85500000] ++ (List.range 7).map (fun i => ((i : Int) + 1) * 86400000 + 43200000) ++
    [692100000]).map (fun t =>
    { now := t, tz := 0, anxiety := 5, irritability := 5, depressedMood := 5,
      elevatedMood := 5, energy := 5, notes := "", sleep := none, weight := none,
      selectedMeds := [] })

/-- Two calls on one day, the clock set back between them: the first at
instant 2000 with a sleep value, the second at instant 1000. -/
def clockSetBackCalls : List TimedCall :=
  [atOneInstant
    { now := 2000, tz := 0, anxiety := 5, irritability := 5, depressedMood := 5,
      elevatedMood := 5, energy := 5, notes := "", sleep := some 8, weight := none,
      selectedMeds := [] },
   atOneInstant
    { now := 1000, tz := 0, anxiety := 5, irritability := 5, depressedMood := 5,
      elevatedMood := 5, energy := 5, notes := "", sleep := none, weight := none,
      selectedMeds := [] }]

/-- Two calls with a sleep value on day 0, the second in its last millisecond,
its read inside `isFirstEntryToday` falling on day 1. -/
def midnightCalls : List TimedCall :=
  [atOneInstant
    { now := 1000, tz := 0, anxiety := 5, irritability := 5, depressedMood := 5,
      elevatedMood := 5, energy := 5, notes := "", sleep := some 8, weight := none,
      selectedMeds := [] },
   { call :=
      { now := 86399999, tz := 0, anxiety := 5, irritability := 5, depressedMood := 5,
        elevatedMood := 5, energy := 5, notes := "", sleep := some 6, weight := none,
        selectedMeds := [] },
     idClock := 86399999, today := 86400000 }]

end MoodTracker

namespace MoodTracker

/-! ## Entry store: validation and construction of the record -/

theorem validate_eq_none_iff (sleep weight : Option ℚ) :
    validate sleep weight = none ↔
      ¬ ((∃ v, sleep = some v ∧ (v < 0 ∨ 24 < v)) ∨ (∃ v, weight = some v ∧ v < 0)) := by
  cases sleep <;> cases weight <;> simp only [validate] <;> split_ifs <;> simp_all

theorem addEntry_of_valid (s : AppState) (now tz : Int)
    (h : validate s.sleep s.weight = none) :
    (addEntry s now tz).entries =
      (s.entries ++ [newEntry s now tz]).insertionSort newestFirst := by
  unfold addEntry persistEntries
  rw [h]
  dsimp only
  split <;> rfl

theorem addEntry_of_invalid (s : AppState) (now tz : Int) (err : ValidationError)
    (h : validate s.sleep s.weight = some err) :
    addEntry s now tz = showSaveMessage s err.message := by
  unfold addEntry
  rw [h]

theorem addEntry_perm (s : AppState) (now tz : Int)
    (h : validate s.sleep s.weight = none) :
    (addEntry s now tz).entries.Perm (newEntry s now tz :: s.entries) := by
  rw [addEntry_of_valid s now tz h]
  exact (List.perm_insertionSort _ _).trans (List.perm_append_singleton _ _)

/-- C7: `addEntry` rejects its input exactly when a sleep value is provided and
lies outside [0, 24] or a weight value is provided and is negative; sleep -1
and 25 give the sleep message, weight -0.1 gives the weight message, and
sleep 0, sleep 24, weight 0 and absent values are accepted. -/
theorem addEntry_rejects_iff (s : AppState) (now tz : Int) :
    ((∃ err : ValidationError, addEntry s now tz = showSaveMessage s err.message) ↔
      ((∃ v, s.sleep = some v ∧ (v < 0 ∨ 24 < v)) ∨ (∃ v, s.weight = some v ∧ v < 0))) ∧
    addEntry { s with sleep := some (-1) } now tz =
      showSaveMessage { s with sleep := some (-1) } "Sleep must be between 0-24 hours" ∧
    addEntry { s with sleep := some 25 } now tz =
      showSaveMessage { s with sleep := some 25 } "Sleep must be between 0-24 hours" ∧
    addEntry { s with sleep := none, weight := some (-1 / 10) } now tz =
      showSaveMessage { s with sleep := none, weight := some (-1 / 10) }
        "Weight cannot be negative" ∧
    validate (some 0) none = none ∧ validate (some 24) none = none ∧
    validate none (some 0) = none ∧ validate (some 0) (some 0) = none ∧
    validate (some 24) (some 0) = none ∧ validate none none = none := by
  refine ⟨⟨?_, ?_⟩, ?_, ?_, ?_, ?_, ?_, ?_, ?_, ?_, ?_⟩
  · rintro ⟨err, herr⟩
    by_contra hbad
    have hv := (validate_eq_none_iff s.sleep s.weight).2 hbad
    have hlen := (addEntry_perm s now tz hv).length_eq
    rw [herr] at hlen
    simp [showSaveMessage] at hlen
  · intro hbad
    cases hv : validate s.sleep s.weight with
    | none => exact absurd hbad ((validate_eq_none_iff _ _).1 hv)
    | some err => exact ⟨err, addEntry_of_invalid s now tz err hv⟩
  · exact addEntry_of_invalid _ now tz .sleepOutOfRange (by simp [validate])
  · exact addEntry_of_invalid _ now tz .sleepOutOfRange (by norm_num [validate])
  · exact addEntry_of_invalid _ now tz .negativeWeight (by norm_num [validate])
  all_goals norm_num [validate]

/-- C8: when `addEntry` rejects its input, the entry collection, the medication
registry and the stored copies of both are what they were before the call. -/
theorem addEntry_reject_no_mutation (s : AppState) (now tz : Int)
    (h : (∃ v, s.sleep = some v ∧ (v < 0 ∨ 24 < v)) ∨ (∃ v, s.weight = some v ∧ v < 0)) :
    (addEntry s now tz).entries = s.entries ∧
    (addEntry s now tz).medications = s.medications ∧
    (addEntry s now tz).storedEntries = s.storedEntries ∧
    (addEntry s now tz).storedMeds = s.storedMeds := by
  cases hv : validate s.sleep s.weight with
  | none => exact absurd h ((validate_eq_none_iff _ _).1 hv)
  | some err =>
    rw [addEntry_of_invalid s now tz err hv]
    exact ⟨rfl, rfl, rfl, rfl⟩

/-- Witness of C8: a sleep value of 25 hours on the initial state. -/
theorem addEntry_reject_no_mutation_witness :
    ((∃ v, ({ AppState.initial with sleep := some 25 } : AppState).sleep = some v ∧
        (v < 0 ∨ 24 < v)) ∨
      (∃ v, ({ AppState.initial with sleep := some 25 } : AppState).weight = some v ∧ v < 0)) ∧
    (addEntry { AppState.initial with sleep := some 25 } 0 0).entries = [] ∧
    (addEntry { AppState.initial with sleep := some 25 } 0 0).medications = [] ∧
    (addEntry { AppState.initial with sleep := some 25 } 0 0).storedEntries = none ∧
    (addEntry { AppState.initial with sleep := some 25 } 0 0).storedMeds = none :=
  ⟨Or.inl ⟨25, rfl, Or.inr (by norm_num)⟩,
   addEntry_reject_no_mutation { AppState.initial with sleep := some 25 } 0 0
     (Or.inl ⟨25, rfl, Or.inr (by norm_num)⟩)⟩

theorem isFirstEntryToday_iff (entries : List MoodEntry) (clock : Int) :
    isFirstEntryToday entries clock = true ↔ ∀ x ∈ entries, x.date ≠ isoDate clock := by
  simp [isFirstEntryToday]

/-- C9: for an accepted `addEntry` call the produced record, which is stored,
has the `sleep` and `weight` properties exactly when no stored entry had the
current day's date at call time; they then hold the supplied values (`null`
for one not supplied), and otherwise both are absent whatever was supplied. -/
theorem addEntry_morning_log_fields (s : AppState) (now tz : Int)
    (hvalid : validate s.sleep s.weight = none) :
    newEntry s now tz ∈ (addEntry s now tz).entries ∧
    (((newEntry s now tz).sleep ≠ .absent ∧ (newEntry s now tz).weight ≠ .absent) ↔
      ∀ x ∈ s.entries, x.date ≠ isoDate now) ∧
    ((∀ x ∈ s.entries, x.date ≠ isoDate now) →
      (newEntry s now tz).sleep = parseOrNull s.sleep ∧
      (newEntry s now tz).weight = parseOrNull s.weight ∧
      (∀ v, s.sleep = some v → (newEntry s now tz).sleep = .num v) ∧
      (s.sleep = none → (newEntry s now tz).sleep = .null) ∧
      (∀ v, s.weight = some v → (newEntry s now tz).weight = .num v) ∧
      (s.weight = none → (newEntry s now tz).weight = .null)) ∧
    ((∃ x ∈ s.entries, x.date = isoDate now) →
      (newEntry s now tz).sleep = .absent ∧ (newEntry s now tz).weight = .absent) := by
  refine ⟨?_, ?_, ?_, ?_⟩
  · exact (addEntry_perm s now tz hvalid).mem_iff.2 (List.mem_cons_self _ _)
  · rw [← isFirstEntryToday_iff]
    cases hf : isFirstEntryToday s.entries now <;>
      cases hs : s.sleep <;> cases hw : s.weight <;> simp [newEntry, hf, hs, hw, parseOrNull]
  · intro h
    have hf := (isFirstEntryToday_iff s.entries now).2 h
    refine ⟨by simp [newEntry, hf], by simp [newEntry, hf], ?_, ?_, ?_, ?_⟩
    · intro v hv
      simp [newEntry, hf, hv, parseOrNull]
    · intro hv
      simp [newEntry, hf, hv, parseOrNull]
    · intro v hv
      simp [newEntry, hf, hv, parseOrNull]
    · intro hv
      simp [newEntry, hf, hv, parseOrNull]
  · rintro ⟨x, hx, hd⟩
    have hf : isFirstEntryToday s.entries now = false := by
      cases hb : isFirstEntryToday s.entries now
      · rfl
      · exact absurd hd ((isFirstEntryToday_iff s.entries now).1 hb x hx)
    simp [newEntry, hf]

/-- Witness of C9: a second entry on the day of a stored one, sleep supplied. -/
theorem addEntry_morning_log_fields_witness :
    validate (some 8) none = none ∧
    (newEntry { AppState.initial with
        entries := [newEntry AppState.initial 1000 0], sleep := some 8 } 2000 0).sleep
      = .absent :=
  ⟨by norm_num [validate],
   ((addEntry_morning_log_fields
      { AppState.initial with entries := [newEntry AppState.initial 1000 0], sleep := some 8 }
      2000 0 (by norm_num [validate, AppState.initial])).2.2.2
      ⟨newEntry AppState.initial 1000 0, List.mem_singleton.2 rfl,
        by norm_num [newEntry, isoDate, msPerDay]⟩).1⟩

theorem resolveMedications_eq_spec (medications : List Medication)
    (hnames : ∀ m ∈ medications, m.name ≠ "") (selectedMeds : List Int) :
    resolveMedications medications selectedMeds = resolveBySpec medications selectedMeds := by
  induction selectedMeds with
  | nil => rfl
  | cons id rest ih =>
    unfold resolveMedications at ih ⊢
    cases hfind : medications.find? (fun m => decide (m.id = id)) with
    | none => simp [resolveBySpec, hfind, truthyName, ih]
    | some m =>
      have hm : m.name ≠ "" := hnames m (List.mem_of_find?_eq_some hfind)
      simp [resolveBySpec, hfind, truthyName, hm, ih]

/-- C10: the `medications` property of the entry produced by `addEntry` is the
list of names obtained by walking the selected ids in selection order,
emitting the name of the registry record with that id and skipping an id
without a record, for every registry whose names are not empty; the
resolution is a total function, so an unknown id raises nothing. -/
theorem newEntry_medications_eq_spec (s : AppState) (now tz : Int)
    (hnames : ∀ m ∈ s.medications, m.name ≠ "") :
    (newEntry s now tz).medications = resolveBySpec s.medications s.selectedMeds ∧
    (∀ id, (∀ m ∈ s.medications, m.id ≠ id) →
      (newEntry { s with selectedMeds := [id] } now tz).medications = []) := by
  refine ⟨resolveMedications_eq_spec s.medications hnames s.selectedMeds, ?_⟩
  intro id hno
  have hfind : s.medications.find? (fun m => decide (m.id = id)) = none := by
    rw [List.find?_eq_none]
    intro m hm
    simpa using hno m hm
  simp [newEntry, resolveMedications, hfind, truthyName]

/-- Witness of C10: one selected id with a record, one without. -/
theorem newEntry_medications_eq_spec_witness :
    (∀ m ∈ ({ AppState.initial with
        medications := [{ id := 1, name := "Lithium" }], selectedMeds := [2, 1] } :
        AppState).medications, m.name ≠ "") ∧
    (newEntry { AppState.initial with
        medications := [{ id := 1, name := "Lithium" }], selectedMeds := [2, 1] } 0 0).medications
      = ["Lithium"] :=
  ⟨by simp [AppState.initial],
   (newEntry_medications_eq_spec
      { AppState.initial with
        medications := [{ id := 1, name := "Lithium" }], selectedMeds := [2, 1] } 0 0
      (by simp [AppState.initial])).1.trans (by simp [resolveBySpec, AppState.initial])⟩

/-! ## Entry store: sequences of calls -/

theorem runCalls_append (s : AppState) (calls : List EntryCall) (c : EntryCall) :
    runCalls s (calls ++ [c]) = submit (runCalls s calls) c := by
  simp [runCalls, List.foldl_append]

/-- A call either leaves the collection as it is or adds the record it built. -/
theorem submit_entries (s : AppState) (c : EntryCall) :
    (submit s c).entries = s.entries ∨
    (submit s c).entries.Perm (newEntry (fillForm s c) c.now c.tz :: s.entries) := by
  cases hv : validate (fillForm s c).sleep (fillForm s c).weight with
  | some err =>
    left
    unfold submit
    rw [addEntry_of_invalid _ _ _ err hv]
    rfl
  | none =>
    right
    exact addEntry_perm (fillForm s c) c.now c.tz hv

theorem submit_sorted (s : AppState) (c : EntryCall)
    (h : s.entries.Sorted newestFirst) : (submit s c).entries.Sorted newestFirst := by
  cases hv : validate (fillForm s c).sleep (fillForm s c).weight with
  | some err =>
    unfold submit
    rw [addEntry_of_invalid _ _ _ err hv]
    exact h
  | none =>
    unfold submit
    rw [addEntry_of_valid _ _ _ hv]
    exact List.sorted_insertionSort _ _

theorem newEntry_timestamp (s : AppState) (now tz : Int) :
    (newEntry s now tz).timestamp = now := rfl

/-- Every stored timestamp is the clock value of one of the calls. -/
theorem runCalls_timestamps (s : AppState) (hs : s.entries = []) (calls : List EntryCall) :
    ∀ e ∈ (runCalls s calls).entries, e.timestamp ∈ calls.map EntryCall.now := by
  induction calls using List.reverseRecOn with
  | nil => simp [runCalls, hs]
  | append_singleton cs c ih =>
    intro e he
    rw [runCalls_append] at he
    rcases submit_entries (runCalls s cs) c with heq | hperm
    · rw [heq] at he
      simp [ih e he]
    · rcases List.mem_cons.1 (hperm.mem_iff.1 he) with rfl | hold
      · simp [newEntry_timestamp]
      · simp [ih e hold]

theorem entries_sorted_of_runCalls (s : AppState) (hs : s.entries = []) (calls : List EntryCall) :
    (runCalls s calls).entries.Sorted newestFirst := by
  induction calls using List.reverseRecOn with
  | nil => simp [runCalls, hs]
  | append_singleton cs c ih =>
    rw [runCalls_append]
    exact submit_sorted _ c ih

theorem runCalls_nodup (s : AppState) (hs : s.entries = []) (calls : List EntryCall)
    (hclock : (calls.map EntryCall.now).Nodup) :
    ((runCalls s calls).entries.map MoodEntry.timestamp).Nodup := by
  induction calls using List.reverseRecOn with
  | nil => simp [runCalls, hs]
  | append_singleton cs c ih =>
    rw [List.map_append, List.nodup_append] at hclock
    obtain ⟨hcs, _, hdisj⟩ := hclock
    rw [runCalls_append]
    rcases submit_entries (runCalls s cs) c with heq | hperm
    · rw [heq]
      exact ih hcs
    · rw [(hperm.map MoodEntry.timestamp).nodup_iff, List.map_cons, List.nodup_cons]
      refine ⟨?_, ih hcs⟩
      intro hmem
      obtain ⟨e, he, hts⟩ := List.mem_map.1 hmem
      have h1 := runCalls_timestamps s hs cs e he
      rw [hts, newEntry_timestamp] at h1
      exact hdisj h1 (by simp)

/-- C6 (amended): after any sequence of `addEntry` calls starting from the
empty store the collection is sorted descending by timestamp, every
timestamp being at least that of each later entry; when the clock values of
the calls are pairwise distinct the order is strict. -/
theorem runCalls_sorted (s : AppState) (hs : s.entries = []) (calls : List EntryCall) :
    (runCalls s calls).entries.Pairwise (fun a b => b.timestamp ≤ a.timestamp) ∧
    ((calls.map EntryCall.now).Nodup →
      (runCalls s calls).entries.Pairwise (fun a b => b.timestamp < a.timestamp)) := by
  have hsorted : (runCalls s calls).entries.Pairwise (fun a b => b.timestamp ≤ a.timestamp) :=
    entries_sorted_of_runCalls s hs calls
  refine ⟨hsorted, fun hclock => ?_⟩
  have hne : (runCalls s calls).entries.Pairwise (fun a b => a.timestamp ≠ b.timestamp) :=
    List.pairwise_map.1 (runCalls_nodup s hs calls hclock)
  exact List.Pairwise.imp₂ (fun a b hle hab => lt_of_le_of_ne hle (Ne.symm hab)) hsorted hne

/-- Counterexample to C6 as stated: two calls stamped with the same instant
leave two entries of which the first is not strictly newer than the second. -/
theorem runCalls_tie_not_strict :
    ¬ (runCalls AppState.initial tieCalls).entries.Chain'
        (fun a b => b.timestamp < a.timestamp) := by
  intro h
  have hmap := (List.chain'_map (R := fun t u : Int => u < t) MoodEntry.timestamp).2 h
  have hts : (runCalls AppState.initial tieCalls).entries.map MoodEntry.timestamp
      = [1000, 1000] := by decide
  rw [hts] at hmap
  simp at hmap

/-- Witness of C6 (amended): the two calls at one instant, from the initial state. -/
theorem runCalls_sorted_witness :
    AppState.initial.entries = [] ∧
    (runCalls AppState.initial tieCalls).entries.Pairwise
      (fun a b => b.timestamp ≤ a.timestamp) :=
  ⟨rfl, (runCalls_sorted AppState.initial rfl tieCalls).1⟩

/-! ## Entry store: the morning log over sequences of calls -/

theorem submitReads_atOneInstant (s : AppState) (c : EntryCall) :
    submitReads s (atOneInstant c) = submit s c := rfl

/-- Calls whose clock reads return one instant each run as `runCalls` does. -/
theorem runReads_atOneInstant (s : AppState) (calls : List EntryCall) :
    runReads s (calls.map atOneInstant) = runCalls s calls := by
  unfold runReads runCalls
  rw [List.foldl_map]
  rfl

theorem runReads_append (s : AppState) (calls : List TimedCall) (c : TimedCall) :
    runReads s (calls ++ [c]) = submitReads (runReads s calls) c := by
  simp [runReads, List.foldl_append]

/-- A call either leaves the collection as it is or adds the record it built. -/
theorem submitReads_entries (s : AppState) (c : TimedCall) :
    (submitReads s c).entries = s.entries ∨
    (submitReads s c).entries.Perm
      (newEntryReads (fillForm s c.call) c.call.now c.idClock c.today c.call.tz ::
        s.entries) := by
  unfold submitReads addEntryReads
  cases hv : validate (fillForm s c.call).sleep (fillForm s c.call).weight with
  | some err =>
    left
    rfl
  | none =>
    right
    have hentries : ∀ t : AppState, (persistEntries t).entries = t.entries := by
      intro t
      unfold persistEntries
      split <;> rfl
    rw [hentries]
    exact (List.perm_insertionSort _ _).trans (List.perm_append_singleton _ _)

theorem newEntryReads_carries (s : AppState) (c : TimedCall)
    (h : carriesMorningLog
      (newEntryReads (fillForm s c.call) c.call.now c.idClock c.today c.call.tz) = true) :
    ∀ x ∈ s.entries, x.date ≠ isoDate c.today := by
  rw [← isFirstEntryToday_iff]
  cases hf : isFirstEntryToday s.entries c.today
  · have hf2 : isFirstEntryToday (fillForm s c.call).entries c.today = false := hf
    simp [carriesMorningLog, newEntryReads, hf2] at h
  · rfl

/-- Every stored timestamp is the handler's clock read of one of the calls. -/
theorem runReads_timestamps (s : AppState) (hs : s.entries = []) (calls : List TimedCall) :
    ∀ e ∈ (runReads s calls).entries,
      e.timestamp ∈ calls.map (fun c => c.call.now) := by
  induction calls using List.reverseRecOn with
  | nil => simp [runReads, hs]
  | append_singleton cs c ih =>
    intro e he
    rw [runReads_append] at he
    rcases submitReads_entries (runReads s cs) c with heq | hperm
    · rw [heq] at he
      simp [ih e he]
    · rcases List.mem_cons.1 (hperm.mem_iff.1 he) with rfl | hold
      · simp [newEntryReads]
      · simp [ih e hold]

theorem runReads_unique (s : AppState) (hs : s.entries = []) (calls : List TimedCall)
    (hday : ∀ c ∈ calls, isoDate c.today = isoDate c.call.now) (d : Int) :
    ((runReads s calls).entries.filter
      (fun e => decide (e.date = d) && carriesMorningLog e)).length ≤ 1 := by
  induction calls using List.reverseRecOn with
  | nil => simp [runReads, hs]
  | append_singleton cs c ih =>
    have ihA := ih (fun c hc => hday c (List.mem_append_left _ hc))
    have hc := hday c (List.mem_append_right _ (List.mem_singleton.2 rfl))
    rw [runReads_append]
    rcases submitReads_entries (runReads s cs) c with heq | hperm
    · rw [heq]
      exact ihA
    · have hfirst := newEntryReads_carries (runReads s cs) c
      rw [(hperm.filter _).length_eq, List.filter_cons]
      split
      · rename_i hp
        simp only [Bool.and_eq_true, decide_eq_true_eq] at hp
        have hnone : (runReads s cs).entries.filter
            (fun e => decide (e.date = d) && carriesMorningLog e) = [] := by
          rw [List.filter_eq_nil_iff]
          intro y hy hy2
          simp only [Bool.and_eq_true, decide_eq_true_eq] at hy2
          refine hfirst hp.2 y hy ?_
          rw [hy2.1, ← hp.1, hc]
          rfl
        simp [hnone]
      · exact ihA

theorem runReads_earliest (s : AppState) (hs : s.entries = []) (calls : List TimedCall)
    (hday : ∀ c ∈ calls, isoDate c.today = isoDate c.call.now)
    (hclock : (calls.map (fun c => c.call.now)).Pairwise (fun t u => t ≤ u)) :
    ∀ e ∈ (runReads s calls).entries, carriesMorningLog e = true →
      ∀ x ∈ (runReads s calls).entries, x.date = e.date → e.timestamp ≤ x.timestamp := by
  induction calls using List.reverseRecOn with
  | nil => simp [runReads, hs]
  | append_singleton cs c ih =>
    rw [List.map_append, List.pairwise_append] at hclock
    obtain ⟨hcs, _, hlate⟩ := hclock
    have ihB := ih (fun c hc => hday c (List.mem_append_left _ hc)) hcs
    have hc := hday c (List.mem_append_right _ (List.mem_singleton.2 rfl))
    have hts := runReads_timestamps s hs cs
    rw [runReads_append]
    rcases submitReads_entries (runReads s cs) c with heq | hperm
    · rw [heq]
      exact ihB
    · have hfirst := newEntryReads_carries (runReads s cs) c
      intro e he hcar x hx hdate
      rcases List.mem_cons.1 (hperm.mem_iff.1 he) with rfl | heold
      · rcases List.mem_cons.1 (hperm.mem_iff.1 hx) with rfl | hxold
        · exact le_refl _
        · refine absurd ?_ (hfirst hcar x hxold)
          rw [hdate, hc]
          rfl
      · rcases List.mem_cons.1 (hperm.mem_iff.1 hx) with rfl | hxold
        · exact hlate _ (hts e heold) c.call.now (by simp)
        · exact ihB e heold hcar x hxold hdate

/-- Counterexample to C1 as stated.  With the clock set back between two calls
of one day (instants 2000, then 1000) the entry that carries the sleep value
is the one stamped 2000, not the entry of its date with the smallest
timestamp.  When the read inside `isFirstEntryToday` falls on the day after
the handler's read, a second entry of day 0 carries a sleep value. -/
theorem morning_log_not_earliest :
    (∃ e ∈ (runReads AppState.initial clockSetBackCalls).entries,
      carriesMorningLog e = true ∧
      ∃ x ∈ (runReads AppState.initial clockSetBackCalls).entries,
        x.date = e.date ∧ x.timestamp < e.timestamp) ∧
    ((runReads AppState.initial midnightCalls).entries.filter
      (fun e => decide (e.date = 0) && carriesMorningLog e)).length = 2 := by
  constructor
  · decide
  · decide

/-- C1 (amended): in every state reached from the empty store by a sequence of
`addEntry` calls, each of whose clock reads fall on one UTC day, at most one
entry of any date carries a non-null sleep or weight; when moreover the
clock does not run backwards from one call to the next, an entry that
carries one has the smallest timestamp of its date. -/
theorem morning_log_unique_earliest (s : AppState) (hs : s.entries = [])
    (calls : List TimedCall)
    (hday : ∀ c ∈ calls, isoDate c.today = isoDate c.call.now) :
    (∀ d, ((runReads s calls).entries.filter
        (fun e => decide (e.date = d) && carriesMorningLog e)).length ≤ 1) ∧
    ((calls.map (fun c => c.call.now)).Pairwise (fun t u => t ≤ u) →
      ∀ e ∈ (runReads s calls).entries, carriesMorningLog e = true →
        ∀ x ∈ (runReads s calls).entries, x.date = e.date → e.timestamp ≤ x.timestamp) :=
  ⟨runReads_unique s hs calls hday, runReads_earliest s hs calls hday⟩

/-- Witness of C1 (amended): the two calls with the clock set back; each one's
clock reads return one instant. -/
theorem morning_log_unique_earliest_witness :
    AppState.initial.entries = [] ∧
    (∀ c ∈ clockSetBackCalls, isoDate c.today = isoDate c.call.now) ∧
    ((runReads AppState.initial clockSetBackCalls).entries.filter
        (fun e => decide (e.date = 0) && carriesMorningLog e)).length ≤ 1 :=
  ⟨rfl, by decide,
   (morning_log_unique_earliest AppState.initial rfl clockSetBackCalls (by decide)).1 0⟩

/-! ## Aggregation engine: the groups -/

theorem groupOf_append_of_ne (visited : List MoodEntry) (e : MoodEntry) (d : Int)
    (h : d ≠ e.date) : groupOf (visited ++ [e]) d = groupOf visited d := by
  have h2 : ¬ e.date = d := fun h3 => h h3.symm
  simp [groupOf, List.filter_append, List.filter_cons, h2, List.find?_cons]

theorem groupOf_append_of_seen (visited : List MoodEntry) (e x : MoodEntry)
    (hx : x ∈ visited) (hd : x.date = e.date) :
    groupOf (visited ++ [e]) e.date = pushRatings e (groupOf visited e.date) := by
  have hsome : (visited.find? (fun y => decide (y.date = e.date))).isSome = true := by
    rw [List.find?_isSome]
    exact ⟨x, hx, by simpa using hd⟩
  obtain ⟨y, hy⟩ := Option.isSome_iff_exists.1 hsome
  simp [groupOf, pushRatings, List.filter_append, List.filter_cons, hy]

theorem groupOf_append_of_new (visited : List MoodEntry) (e : MoodEntry)
    (hnew : ∀ x ∈ visited, x.date ≠ e.date) :
    groupOf (visited ++ [e]) e.date =
      pushRatings e
        { date := e.date, anxiety := [], irritability := [], depressed := [], elevated := [],
          energy := [], sleep := orNull e.sleep, weight := orNull e.weight } := by
  have hnone : visited.find? (fun y => decide (y.date = e.date)) = none := by
    rw [List.find?_eq_none]
    intro y hy
    simpa using hnew y hy
  have hfil : visited.filter (fun y => decide (y.date = e.date)) = [] := by
    rw [List.filter_eq_nil_iff]
    intro y hy
    simpa using hnew y hy
  simp [groupOf, pushRatings, List.filter_append, List.filter_cons, hnone, hfil,
    List.find?_cons]

/-- After the loop has visited `visited`, the groups are the `groupOf` of
distinct dates, one for each date that occurs among the visited entries. -/
theorem foldl_groupStep (visited : List MoodEntry) :
    ((visited.foldl groupStep []).map DayGroup.date).Nodup ∧
    (∀ g ∈ visited.foldl groupStep [], g = groupOf visited g.date) ∧
    (∀ d, d ∈ (visited.foldl groupStep []).map DayGroup.date ↔ ∃ x ∈ visited, x.date = d) := by
  induction visited using List.reverseRecOn with
  | nil => simp
  | append_singleton F e ih =>
    obtain ⟨hnd, hgrp, hmem⟩ := ih
    rw [List.foldl_append, List.foldl_cons, List.foldl_nil]
    generalize F.foldl groupStep [] = G at hnd hgrp hmem
    by_cases hany : G.any (fun g => decide (g.date = e.date)) = true
    · have hstep : groupStep G e =
          G.map (fun g => if g.date = e.date then pushRatings e g else g) := by
        simp only [groupStep, hany, if_true]
      have hdates : (groupStep G e).map DayGroup.date = G.map DayGroup.date := by
        rw [hstep, List.map_map]
        apply List.map_congr_left
        intro g _
        simp only [Function.comp]
        split <;> rfl
      obtain ⟨x, hx, hxd⟩ : ∃ x ∈ F, x.date = e.date := by
        rw [← hmem]
        obtain ⟨g, hg, hgd⟩ := List.any_eq_true.1 hany
        exact List.mem_map.2 ⟨g, hg, by simpa using hgd⟩
      refine ⟨by rw [hdates]; exact hnd, ?_, ?_⟩
      · intro g' hg'
        rw [hstep] at hg'
        obtain ⟨g, hg, rfl⟩ := List.mem_map.1 hg'
        by_cases hd : g.date = e.date
        · simp only [hd, if_true]
          have h1 := hgrp g hg
          rw [hd] at h1
          rw [show (pushRatings e g).date = e.date from hd,
            groupOf_append_of_seen F e x hx hxd, ← h1]
        · simp only [hd, if_false]
          rw [groupOf_append_of_ne F e g.date hd]
          exact hgrp g hg
      · intro d
        rw [hdates, hmem]
        constructor
        · rintro ⟨y, hy, hyd⟩
          exact ⟨y, List.mem_append_left _ hy, hyd⟩
        · rintro ⟨y, hy, hyd⟩
          rcases List.mem_append.1 hy with hyF | hye
          · exact ⟨y, hyF, hyd⟩
          · rw [List.mem_singleton.1 hye] at hyd
            exact ⟨x, hx, hxd.trans hyd⟩
    · have hnot : ∀ g ∈ G, g.date ≠ e.date := by
        intro g hg hgd
        exact hany (List.any_eq_true.2 ⟨g, hg, by simpa using hgd⟩)
      have hnew : ∀ x ∈ F, x.date ≠ e.date := by
        intro x hx hxd
        obtain ⟨g, hg, hgd⟩ := List.mem_map.1 ((hmem e.date).2 ⟨x, hx, hxd⟩)
        exact hnot g hg hgd
      have hstep : groupStep G e =
          G ++ [pushRatings e
            { date := e.date, anxiety := [], irritability := [], depressed := [],
              elevated := [], energy := [], sleep := orNull e.sleep,
              weight := orNull e.weight }] := by
        have hG : G.map (fun g => if g.date = e.date then pushRatings e g else g) = G := by
          conv_rhs => rw [← List.map_id G]
          apply List.map_congr_left
          intro g hg
          simp [hnot g hg]
        simp [groupStep, hany, hG]
      refine ⟨?_, ?_, ?_⟩
      · rw [hstep, List.map_append, List.nodup_append]
        refine ⟨hnd, by simp, ?_⟩
        intro d hd1 hd2
        simp only [List.map_cons, List.map_nil, List.mem_singleton] at hd2
        obtain ⟨g, hg, hgd⟩ := List.mem_map.1 hd1
        exact hnot g hg (hgd.trans hd2)
      · intro g' hg'
        rw [hstep] at hg'
        rcases List.mem_append.1 hg' with hold | hnewg
        · rw [groupOf_append_of_ne F e g'.date (hnot g' hold)]
          exact hgrp g' hold
        · rw [List.mem_singleton.1 hnewg]
          exact (groupOf_append_of_new F e hnew).symm
      · intro d
        rw [hstep, List.map_append, List.mem_append, hmem]
        constructor
        · rintro (⟨y, hy, hyd⟩ | hd)
          · exact ⟨y, List.mem_append_left _ hy, hyd⟩
          · simp only [List.map_cons, List.map_nil, List.mem_singleton] at hd
            exact ⟨e, by simp, hd.symm⟩
        · rintro ⟨y, hy, hyd⟩
          rcases List.mem_append.1 hy with hyF | hye
          · exact Or.inl ⟨y, hyF, hyd⟩
          · rw [List.mem_singleton.1 hye] at hyd
            exact Or.inr (by simp [pushRatings, hyd])

/-! ## Numbers -/

theorem roundHalfEven_intCast (z : Int) : roundHalfEven (z : ℚ) = z := by
  simp [roundHalfEven]

theorem roundHalfEven_of_near (x : ℚ) (z : Int) (h1 : (z : ℚ) - 1 / 2 < x)
    (h2 : x < (z : ℚ) + 1 / 2) : roundHalfEven x = z := by
  unfold roundHalfEven
  by_cases hx : (z : ℚ) ≤ x
  · have hf : ⌊x⌋ = z := Int.floor_eq_iff.2 ⟨hx, by linarith⟩
    rw [hf, if_pos (by linarith)]
  · have hf : ⌊x⌋ = z - 1 := Int.floor_eq_iff.2 ⟨by push_cast; linarith, by push_cast; linarith⟩
    rw [hf, if_neg (by push_cast; linarith), if_pos (by push_cast; linarith)]
    ring

/-- A result whose quotient by the unit in the last place is an integer is a
double, and is returned as it is. -/
theorem toDouble_of_exact (q : ℚ) (z : Int) (h : q / 2 ^ ulpExponent q = z) :
    toDouble q = q := by
  unfold toDouble
  rw [h, roundHalfEven_intCast, ← h]
  have hne : (2 : ℚ) ^ ulpExponent q ≠ 0 := zpow_ne_zero _ (by norm_num)
  field_simp

theorem ulpExponent_natCast (n : ℕ) : ulpExponent (n : ℚ) = (Nat.log 2 n : Int) - 52 := by
  unfold ulpExponent
  rw [abs_of_nonneg (Nat.cast_nonneg n), Int.log_natCast]
  omega

/-- The natural numbers up to `2 ^ 53` are doubles. -/
theorem toDouble_natCast (n : ℕ) (h : n ≤ 2 ^ 53) : toDouble (n : ℚ) = n := by
  have hlog : Nat.log 2 n ≤ 53 := by
    by_cases h0 : n = 0
    · rw [h0]
      simp
    · have h54 : Nat.log 2 n < 54 := Nat.log_lt_of_lt_pow h0 (by omega)
      omega
  by_cases h52 : Nat.log 2 n ≤ 52
  · apply toDouble_of_exact _ ((n * 2 ^ (52 - Nat.log 2 n) : ℕ) : Int)
    rw [ulpExponent_natCast]
    have hexp : ((Nat.log 2 n : Int) - 52) = -((52 - Nat.log 2 n : ℕ) : Int) := by omega
    rw [hexp, zpow_neg, zpow_natCast, div_inv_eq_mul]
    push_cast
    ring
  · have h53 : Nat.log 2 n = 53 := by omega
    have hge : 2 ^ 53 ≤ n := by
      have hpow := Nat.pow_log_le_self 2 (show n ≠ 0 by
        intro h0
        rw [h0] at h53
        simp at h53)
      rw [h53] at hpow
      exact hpow
    have hn : n = 2 ^ 53 := le_antisymm h hge
    apply toDouble_of_exact _ ((2 ^ 52 : ℕ) : Int)
    rw [ulpExponent_natCast, h53, hn]
    norm_num

theorem toDouble_rating (x : Int) (h : 0 ≤ x ∧ x ≤ 10) : toDouble (x : ℚ) = x := by
  obtain ⟨k, hk⟩ := Int.eq_ofNat_of_zero_le h.1
  rw [hk]
  have hk10 : k ≤ 2 ^ 53 := by omega
  exact_mod_cast toDouble_natCast k hk10

/-- The running sum of ratings is exact as long as it stays below `2 ^ 53`. -/
theorem foldl_addDouble (xs : List Int) (acc : ℕ) (hxs : ∀ x ∈ xs, 0 ≤ x ∧ x ≤ 10)
    (hsize : acc + 10 * xs.length ≤ 2 ^ 53) :
    xs.foldl (fun (a : ℚ) (b : Int) => addDouble a (b : ℚ)) (acc : ℚ) =
      (acc : ℚ) + ((xs.sum : Int) : ℚ) := by
  induction xs generalizing acc with
  | nil => simp
  | cons x rest ih =>
    have hx := hxs x (List.mem_cons_self _ _)
    obtain ⟨k, hk⟩ := Int.eq_ofNat_of_zero_le hx.1
    have hk10 : k ≤ 10 := by omega
    rw [List.length_cons] at hsize
    have hstep : addDouble (acc : ℚ) (x : ℚ) = ((acc + k : ℕ) : ℚ) := by
      unfold addDouble
      rw [hk]
      have hsum : ((acc : ℚ) + ((k : Int) : ℚ)) = ((acc + k : ℕ) : ℚ) := by
        push_cast
        ring
      rw [hsum]
      exact toDouble_natCast _ (by omega)
    rw [List.foldl_cons, hstep, ih (acc + k) (fun y hy => hxs y (List.mem_cons_of_mem _ hy))
      (by omega), List.sum_cons, hk]
    push_cast
    ring

theorem average_eq_toDouble (xs : List Int) (hxs : ∀ x ∈ xs, 0 ≤ x ∧ x ≤ 10)
    (hsize : 10 * xs.length ≤ 2 ^ 53) :
    average xs = toDouble (((xs.sum : Int) : ℚ) / (xs.length : ℚ)) := by
  unfold average divDouble
  have h := foldl_addDouble xs 0 hxs (by omega)
  simp only [Nat.cast_zero, zero_add] at h
  rw [h]

theorem ulpExponent_fourteen_thirds : ulpExponent (14 / 3) = -50 := by
  have habs : |(14 / 3 : ℚ)| = 14 / 3 := abs_of_nonneg (by norm_num)
  have hfloor : ⌊(14 / 3 : ℚ)⌋₊ = 4 := by
    rw [Nat.floor_eq_iff (by norm_num)]
    norm_num
  have hlog : Nat.log 2 4 = 2 := Nat.log_eq_of_pow_le_of_lt_pow (by norm_num) (by norm_num)
  unfold ulpExponent
  rw [habs, Int.log_of_one_le_right 2 (by norm_num), hfloor, hlog]
  norm_num

/-- The double nearest to 14/3, printed as 4.666666666666667. -/
theorem toDouble_fourteen_thirds :
    toDouble (14 / 3) = 5254199565265579 / 1125899906842624 := by
  unfold toDouble
  rw [ulpExponent_fourteen_thirds, roundHalfEven_of_near _ 5254199565265579
    (by norm_num) (by norm_num)]
  norm_num

theorem average_eight_four : average [8, 4] = 6 := by
  rw [average_eq_toDouble _ (by decide) (by norm_num)]
  have h := toDouble_natCast 6 (by norm_num)
  norm_num at h ⊢
  exact h

theorem average_five_five : average [5, 5] = 5 := by
  rw [average_eq_toDouble _ (by decide) (by norm_num)]
  have h := toDouble_natCast 5 (by norm_num)
  norm_num at h ⊢
  exact h

theorem average_five_five_four :
    average [5, 5, 4] = 5254199565265579 / 1125899906842624 := by
  rw [average_eq_toDouble _ (by decide) (by norm_num)]
  have h := toDouble_fourteen_thirds
  norm_num at h ⊢
  exact h

/-! ## Aggregation engine: the metrics -/

theorem mem_getTimeRangeData (entries : List MoodEntry) (r : TimeRange)
    (now tzaNow tzaStart : Int) (m : DayMetric) :
    m ∈ getTimeRangeData entries r now tzaNow tzaStart ↔
      ∃ g ∈ (inWindow r now tzaNow tzaStart entries).foldl groupStep [], toMetric g = m := by
  unfold getTimeRangeData
  rw [(List.perm_insertionSort _ _).mem_iff, List.mem_map]

theorem getTimeRangeData_dates_perm (entries : List MoodEntry) (r : TimeRange)
    (now tzaNow tzaStart : Int) :
    ((getTimeRangeData entries r now tzaNow tzaStart).map DayMetric.fullDate).Perm
      (((inWindow r now tzaNow tzaStart entries).foldl groupStep []).map DayGroup.date) := by
  unfold getTimeRangeData
  refine ((List.perm_insertionSort _ _).map _).trans ?_
  rw [List.map_map]
  exact List.Perm.of_eq rfl

/-- Every returned metric is built from the group of its date. -/
theorem getTimeRangeData_eq_groupOf (entries : List MoodEntry) (r : TimeRange)
    (now tzaNow tzaStart : Int) (m : DayMetric)
    (hm : m ∈ getTimeRangeData entries r now tzaNow tzaStart) :
    m = toMetric (groupOf (inWindow r now tzaNow tzaStart entries) m.fullDate) ∧
    ∃ x ∈ inWindow r now tzaNow tzaStart entries, x.date = m.fullDate := by
  obtain ⟨g, hg, rfl⟩ := (mem_getTimeRangeData entries r now tzaNow tzaStart m).1 hm
  obtain ⟨_, hgrp, hmem⟩ := foldl_groupStep (inWindow r now tzaNow tzaStart entries)
  refine ⟨?_, (hmem g.date).1 (List.mem_map.2 ⟨g, hg, rfl⟩)⟩
  show toMetric g = toMetric (groupOf (inWindow r now tzaNow tzaStart entries) g.date)
  rw [← hgrp g hg]

theorem dayEntries_sublist (entries : List MoodEntry) (r : TimeRange)
    (now tzaNow tzaStart : Int) (d : Int) :
    (dayEntries r now tzaNow tzaStart entries d).Sublist entries :=
  (List.filter_sublist _).trans (List.filter_sublist _)

/-- The mean of one rating over the in-window entries of a date, when the
ratings of the collection are in range and the collection is not too large:
the double nearest to the exact quotient of the sum by the count. -/
theorem average_dayEntries (entries : List MoodEntry) (r : TimeRange)
    (now tzaNow tzaStart : Int) (d : Int) (field : MoodEntry → Int)
    (hfield : ∀ e ∈ entries, 0 ≤ field e ∧ field e ≤ 10)
    (hsize : entries.length ≤ 2 ^ 49) :
    average ((dayEntries r now tzaNow tzaStart entries d).map field) =
      toDouble (((((dayEntries r now tzaNow tzaStart entries d).map field).sum : Int) : ℚ) /
        ((dayEntries r now tzaNow tzaStart entries d).length : ℚ)) := by
  have hsub := dayEntries_sublist entries r now tzaNow tzaStart d
  have hlen := hsub.length_le
  rw [average_eq_toDouble, List.length_map]
  · intro x hx
    obtain ⟨e, he, rfl⟩ := List.mem_map.1 hx
    exact hfield e (hsub.subset he)
  · rw [List.length_map]
    omega

theorem ratingsInRange_iff (e : MoodEntry) :
    ratingsInRange e = true ↔
      (1 ≤ e.anxiety ∧ e.anxiety ≤ 10) ∧ (1 ≤ e.irritability ∧ e.irritability ≤ 10) ∧
      (1 ≤ e.depressedMood ∧ e.depressedMood ≤ 10) ∧
      (1 ≤ e.elevatedMood ∧ e.elevatedMood ≤ 10) ∧ (1 ≤ e.energy ∧ e.energy ≤ 10) := by
  simp [ratingsInRange, and_assoc]

/-- The metrics of the two entries of `sameDayCalls`, over the last week. -/
theorem sameDay_metrics :
    getTimeRangeData (runCalls AppState.initial sameDayCalls).entries .week 3000 0 0 =
      [{ fullDate := 0, anxiety := 6, irritability := 5, depressed := 5, elevated := 5,
         energy := 5, sleep := none, weight := none }] := by
  norm_num [getTimeRangeData, runCalls, sameDayCalls, submit, addEntry, fillForm,
    AppState.initial, validate, persistEntries, newEntry, inWindow, cutoff, ranges,
    msPerDay, groupStep, pushRatings, toMetric, isoDate, List.insertionSort,
    List.orderedInsert, newestFirst, isFirstEntryToday, orNull, average_eight_four,
    average_five_five]

/-- The metrics of the three entries of `threeCalls`, over the last week. -/
theorem threeCalls_metrics :
    getTimeRangeData (runCalls AppState.initial threeCalls).entries .week 4000 0 0 =
      [{ fullDate := 0, anxiety := 5254199565265579 / 1125899906842624, irritability := 5,
         depressed := 5, elevated := 5, energy := 5, sleep := none, weight := none }] := by
  have h5 : average [5, 5, 5] = 5 := by
    rw [average_eq_toDouble _ (by decide) (by norm_num)]
    have h := toDouble_natCast 5 (by norm_num)
    norm_num at h ⊢
    exact h
  norm_num [getTimeRangeData, runCalls, threeCalls, submit, addEntry, fillForm,
    AppState.initial, validate, persistEntries, newEntry, inWindow, cutoff, ranges,
    msPerDay, groupStep, pushRatings, toMetric, isoDate, List.insertionSort,
    List.orderedInsert, newestFirst, isFirstEntryToday, orNull, average_five_five_four, h5]

/-- Counterexample to C4 as stated: for three entries of one day with anxiety
4, 5 and 5 the exact quotient of the sum by the count is 14/3, and the metric
holds the double nearest to it, 5254199565265579 / 2 ^ 50, which is printed
4.666666666666667. -/
theorem mean_is_rounded :
    ((((dayEntries .week 4000 0 0 (runCalls AppState.initial threeCalls).entries 0).map
        MoodEntry.anxiety).sum : Int) : ℚ) /
      ((dayEntries .week 4000 0 0 (runCalls AppState.initial threeCalls).entries 0).length : ℚ)
      = 14 / 3 ∧
    (getTimeRangeData (runCalls AppState.initial threeCalls).entries .week 4000 0 0).map
      DayMetric.anxiety = [5254199565265579 / 1125899906842624] ∧
    (getTimeRangeData (runCalls AppState.initial threeCalls).entries .week 4000 0 0).map
      DayMetric.anxiety ≠ [14 / 3] := by
  refine ⟨?_, ?_, ?_⟩
  · norm_num [dayEntries, runCalls, threeCalls, submit, addEntry, fillForm,
      AppState.initial, validate, persistEntries, newEntry, inWindow, cutoff, ranges,
      msPerDay, isoDate, List.insertionSort, List.orderedInsert, newestFirst]
  · rw [threeCalls_metrics]
    rfl
  · rw [threeCalls_metrics]
    norm_num

/-- C4 (amended): for every time range and every entry collection of at most
`2 ^ 49` entries whose ratings are integers from 1 to 10, every metric
returned by `getTimeRangeData` has, for each of the five ratings, the double
nearest to the sum of that rating over the in-window entries of its date
divided by the number of those entries (there is at least one): the sum is
exact and the quotient is rounded once.  A date with one in-window entry
yields that entry's ratings, and two entries of one day with anxiety 4 and 8
yield 6. -/
theorem getTimeRangeData_mean (entries : List MoodEntry) (r : TimeRange)
    (now tzaNow tzaStart : Int) (m : DayMetric)
    (hrange : ∀ e ∈ entries, ratingsInRange e = true) (hsize : entries.length ≤ 2 ^ 49)
    (hm : m ∈ getTimeRangeData entries r now tzaNow tzaStart) :
    0 < (dayEntries r now tzaNow tzaStart entries m.fullDate).length ∧
    m.anxiety = toDouble
      (((((dayEntries r now tzaNow tzaStart entries m.fullDate).map
          MoodEntry.anxiety).sum : Int) : ℚ) /
        ((dayEntries r now tzaNow tzaStart entries m.fullDate).length : ℚ)) ∧
    m.irritability = toDouble
      (((((dayEntries r now tzaNow tzaStart entries m.fullDate).map
          MoodEntry.irritability).sum : Int) : ℚ) /
        ((dayEntries r now tzaNow tzaStart entries m.fullDate).length : ℚ)) ∧
    m.depressed = toDouble
      (((((dayEntries r now tzaNow tzaStart entries m.fullDate).map
          MoodEntry.depressedMood).sum : Int) : ℚ) /
        ((dayEntries r now tzaNow tzaStart entries m.fullDate).length : ℚ)) ∧
    m.elevated = toDouble
      (((((dayEntries r now tzaNow tzaStart entries m.fullDate).map
          MoodEntry.elevatedMood).sum : Int) : ℚ) /
        ((dayEntries r now tzaNow tzaStart entries m.fullDate).length : ℚ)) ∧
    m.energy = toDouble
      (((((dayEntries r now tzaNow tzaStart entries m.fullDate).map
          MoodEntry.energy).sum : Int) : ℚ) /
        ((dayEntries r now tzaNow tzaStart entries m.fullDate).length : ℚ)) ∧
    (∀ e, dayEntries r now tzaNow tzaStart entries m.fullDate = [e] →
      m.anxiety = e.anxiety ∧ m.irritability = e.irritability ∧
      m.depressed = e.depressedMood ∧ m.elevated = e.elevatedMood ∧ m.energy = e.energy) ∧
    (getTimeRangeData (runCalls AppState.initial sameDayCalls).entries .week 3000 0 0).map
      DayMetric.anxiety = [6] := by
  obtain ⟨heq, x, hx, hxd⟩ := getTimeRangeData_eq_groupOf entries r now tzaNow tzaStart m hm
  have hpos : 0 < (dayEntries r now tzaNow tzaStart entries m.fullDate).length := by
    apply List.length_pos_of_mem (a := x)
    unfold dayEntries
    rw [List.mem_filter]
    exact ⟨hx, by simpa using hxd⟩
  have hr := fun e he => (ratingsInRange_iff e).1 (hrange e he)
  have ha : m.anxiety =
      average ((dayEntries r now tzaNow tzaStart entries m.fullDate).map MoodEntry.anxiety) := by
    rw [heq]; rfl
  have hi : m.irritability =
      average ((dayEntries r now tzaNow tzaStart entries m.fullDate).map
        MoodEntry.irritability) := by
    rw [heq]; rfl
  have hd : m.depressed =
      average ((dayEntries r now tzaNow tzaStart entries m.fullDate).map
        MoodEntry.depressedMood) := by
    rw [heq]; rfl
  have hl : m.elevated =
      average ((dayEntries r now tzaNow tzaStart entries m.fullDate).map
        MoodEntry.elevatedMood) := by
    rw [heq]; rfl
  have hn : m.energy =
      average ((dayEntries r now tzaNow tzaStart entries m.fullDate).map MoodEntry.energy) := by
    rw [heq]; rfl
  rw [average_dayEntries entries r now tzaNow tzaStart m.fullDate MoodEntry.anxiety
    (fun e he => ⟨by linarith [(hr e he).1.1], (hr e he).1.2⟩) hsize] at ha
  rw [average_dayEntries entries r now tzaNow tzaStart m.fullDate MoodEntry.irritability
    (fun e he => ⟨by linarith [(hr e he).2.1.1], (hr e he).2.1.2⟩) hsize] at hi
  rw [average_dayEntries entries r now tzaNow tzaStart m.fullDate MoodEntry.depressedMood
    (fun e he => ⟨by linarith [(hr e he).2.2.1.1], (hr e he).2.2.1.2⟩) hsize] at hd
  rw [average_dayEntries entries r now tzaNow tzaStart m.fullDate MoodEntry.elevatedMood
    (fun e he => ⟨by linarith [(hr e he).2.2.2.1.1], (hr e he).2.2.2.1.2⟩) hsize] at hl
  rw [average_dayEntries entries r now tzaNow tzaStart m.fullDate MoodEntry.energy
    (fun e he => ⟨by linarith [(hr e he).2.2.2.2.1], (hr e he).2.2.2.2.2⟩) hsize] at hn
  refine ⟨hpos, ha, hi, hd, hl, hn, ?_, ?_⟩
  · intro e he
    have hmem : e ∈ entries :=
      (dayEntries_sublist entries r now tzaNow tzaStart m.fullDate).subset
        (by rw [he]; exact List.mem_singleton.2 rfl)
    have hre := hr e hmem
    rw [he] at ha hi hd hl hn
    simp only [List.map_cons, List.map_nil, List.sum_cons, List.sum_nil, add_zero,
      List.length_singleton, Nat.cast_one, div_one] at ha hi hd hl hn
    rw [toDouble_rating _ ⟨by linarith [hre.1.1], hre.1.2⟩] at ha
    rw [toDouble_rating _ ⟨by linarith [hre.2.1.1], hre.2.1.2⟩] at hi
    rw [toDouble_rating _ ⟨by linarith [hre.2.2.1.1], hre.2.2.1.2⟩] at hd
    rw [toDouble_rating _ ⟨by linarith [hre.2.2.2.1.1], hre.2.2.2.1.2⟩] at hl
    rw [toDouble_rating _ ⟨by linarith [hre.2.2.2.2.1], hre.2.2.2.2.2⟩] at hn
    exact ⟨ha, hi, hd, hl, hn⟩
  · rw [sameDay_metrics]
    rfl

/-- Witness of C4 (amended): the one metric of the two entries of `sameDayCalls`. -/
theorem getTimeRangeData_mean_witness :
    (∀ e ∈ (runCalls AppState.initial sameDayCalls).entries, ratingsInRange e = true) ∧
    (runCalls AppState.initial sameDayCalls).entries.length ≤ 2 ^ 49 ∧
    ({ fullDate := 0, anxiety := 6, irritability := 5, depressed := 5, elevated := 5,
       energy := 5, sleep := none, weight := none } : DayMetric) ∈
      getTimeRangeData (runCalls AppState.initial sameDayCalls).entries .week 3000 0 0 ∧
    0 < (dayEntries .week 3000 0 0 (runCalls AppState.initial sameDayCalls).entries 0).length :=
  ⟨by decide, by decide, by rw [sameDay_metrics]; exact List.mem_singleton.2 rfl,
   (getTimeRangeData_mean (runCalls AppState.initial sameDayCalls).entries .week 3000 0 0
      { fullDate := 0, anxiety := 6, irritability := 5, depressed := 5, elevated := 5,
        energy := 5, sleep := none, weight := none }
      (by decide) (by decide)
      (by rw [sameDay_metrics]; exact List.mem_singleton.2 rfl)).1⟩

theorem getTimeRangeData_sorted (entries : List MoodEntry) (r : TimeRange)
    (now tzaNow tzaStart : Int) :
    (getTimeRangeData entries r now tzaNow tzaStart).Pairwise
      (fun a b => a.fullDate < b.fullDate) := by
  have hle : (getTimeRangeData entries r now tzaNow tzaStart).Pairwise
      (fun a b => a.fullDate ≤ b.fullDate) :=
    List.sorted_insertionSort oldestDayFirst _
  have hnd : ((getTimeRangeData entries r now tzaNow tzaStart).map DayMetric.fullDate).Nodup :=
    (getTimeRangeData_dates_perm entries r now tzaNow tzaStart).nodup_iff.2
      (foldl_groupStep (inWindow r now tzaNow tzaStart entries)).1
  exact List.Pairwise.imp₂ (fun a b h1 h2 => lt_of_le_of_ne h1 h2) hle (List.pairwise_map.1 hnd)

theorem getTimeRangeData_dates (entries : List MoodEntry) (r : TimeRange)
    (now tzaNow tzaStart : Int) (d : Int) :
    d ∈ (getTimeRangeData entries r now tzaNow tzaStart).map DayMetric.fullDate ↔
      ∃ e ∈ entries,
        now + tzaNow - ranges r * msPerDay - tzaStart ≤ e.timestamp ∧ e.date = d := by
  rw [(getTimeRangeData_dates_perm entries r now tzaNow tzaStart).mem_iff,
    (foldl_groupStep (inWindow r now tzaNow tzaStart entries)).2.2 d]
  simp only [inWindow, cutoff, List.mem_filter, decide_eq_true_eq]
  constructor
  · rintro ⟨x, ⟨hx, hw⟩, hd⟩
    exact ⟨x, hx, hw, hd⟩
  · rintro ⟨x, hx, hw, hd⟩
    exact ⟨x, ⟨hx, hw⟩, hd⟩

/-- Counterexample to C5 as stated: in a zone whose daylight saving began
inside the window (offset -4 h at `now`, -5 h at the start), the week range
starts one hour after `now` less seven days, and the entry stamped exactly
`now` less seven days gets no metric. -/
theorem week_boundary_entry_dropped :
    (∃ e ∈ (runCalls AppState.initial noonCall).entries,
      648000000 - ranges .week * msPerDay ≤ e.timestamp ∧ e.date = 0) ∧
    getTimeRangeData (runCalls AppState.initial noonCall).entries .week 648000000
      (-14400000) (-18000000) = [] := by
  constructor
  · decide
  · decide

/-- C5 (amended): for every time range, every `now`, every pair of zone
offsets and every entry collection, `getTimeRangeData` returns one metric for
each date that occurs among the entries with timestamp at least the start
date (the boundary included) and none for another date, each such date once,
in strictly ascending order of date; the start date is the local time of
`now` moved back by `ranges r` calendar days, which is `now` less that many
days of 24 hours when the zone has the same offset at both instants.  The
empty collection yields the empty sequence. -/
theorem getTimeRangeData_days (entries : List MoodEntry) (r : TimeRange)
    (now tzaNow tzaStart : Int) :
    (∀ d, d ∈ (getTimeRangeData entries r now tzaNow tzaStart).map DayMetric.fullDate ↔
      ∃ e ∈ entries,
        now + tzaNow - ranges r * msPerDay - tzaStart ≤ e.timestamp ∧ e.date = d) ∧
    (tzaNow = tzaStart →
      ∀ d, d ∈ (getTimeRangeData entries r now tzaNow tzaStart).map DayMetric.fullDate ↔
        ∃ e ∈ entries, now - ranges r * msPerDay ≤ e.timestamp ∧ e.date = d) ∧
    (∀ d, (∃ e ∈ entries,
        now + tzaNow - ranges r * msPerDay - tzaStart ≤ e.timestamp ∧ e.date = d) →
      ((getTimeRangeData entries r now tzaNow tzaStart).map DayMetric.fullDate).count d = 1) ∧
    (getTimeRangeData entries r now tzaNow tzaStart).Pairwise
      (fun a b => a.fullDate < b.fullDate) ∧
    getTimeRangeData [] r now tzaNow tzaStart = [] ∧
    (ranges .day = 1 ∧ ranges .week = 7 ∧ ranges .month = 30 ∧ ranges .year = 365 ∧
      ranges .all = 99999) := by
  refine ⟨getTimeRangeData_dates entries r now tzaNow tzaStart, ?_, ?_,
    getTimeRangeData_sorted entries r now tzaNow tzaStart, rfl, rfl, rfl, rfl, rfl, rfl⟩
  · intro hz d
    rw [getTimeRangeData_dates, hz]
    have hcut : now + tzaStart - ranges r * msPerDay - tzaStart = now - ranges r * msPerDay := by
      ring
    rw [hcut]
  · intro d hd
    apply List.count_eq_one_of_mem
    · exact (getTimeRangeData_dates_perm entries r now tzaNow tzaStart).nodup_iff.2
        (foldl_groupStep (inWindow r now tzaNow tzaStart entries)).1
    · exact (getTimeRangeData_dates entries r now tzaNow tzaStart d).2 hd

/-- C2, evaluated where the code departs from it: the metric of a day takes
`sleep`/`weight` from the first entry the loop visits, and reads them with
`|| null`.  After two calls on one day the store holds the later entry,
without the properties, before the morning entry with sleep 8, and the
day's metric has sleep `null`; a single entry with sleep 0 and weight 0
gives a metric with both `null`. -/
theorem getTimeRangeData_loses_morning_log :
    (runCalls AppState.initial sameDayCalls).entries.map MoodEntry.sleep
      = [.absent, .num 8] ∧
    (getTimeRangeData (runCalls AppState.initial sameDayCalls).entries .week 3000 0 0).map
      DayMetric.sleep = [none] ∧
    (runCalls AppState.initial zeroSleepCalls).entries.map (fun e => (e.sleep, e.weight))
      = [(.num 0, .num 0)] ∧
    (getTimeRangeData (runCalls AppState.initial zeroSleepCalls).entries .week 3000 0 0).map
      (fun m => (m.sleep, m.weight)) = [(none, none)] := by
  refine ⟨?_, ?_, ?_, ?_⟩ <;>
  norm_num [getTimeRangeData, runCalls, sameDayCalls, zeroSleepCalls, submit, addEntry,
    fillForm, AppState.initial, validate, persistEntries, newEntry, inWindow, cutoff, ranges,
    msPerDay, groupStep, pushRatings, toMetric, isoDate, List.insertionSort,
    List.orderedInsert, newestFirst, isFirstEntryToday, orNull, parseOrNull]

/-- Counterexample to C3 as stated: with one entry at noon of each of ten
consecutive days and `now` the instant of the last one, in a zone without a
change of offset, the week range returns the metrics of eight days. -/
theorem week_returns_eight_days :
    ¬ (getTimeRangeData (runCalls AppState.initial tenDayCalls).entries .week
        (9 * 86400000 + 43200000) 0 0).length ≤ 7 := by
  have hdates : (getTimeRangeData (runCalls AppState.initial tenDayCalls).entries .week
      (9 * 86400000 + 43200000) 0 0).map DayMetric.fullDate = [2, 3, 4, 5, 6, 7, 8, 9] := by
    decide
  have hlen := congrArg List.length hdates
  rw [List.length_map] at hlen
  rw [hlen]
  decide

/-- Across the end of daylight saving (offset -5 h at `now`, -4 h at the start)
the week range spans seven days and one hour: nine entries on nine
consecutive days, none later than `now`, all get a metric. -/
theorem week_returns_nine_days :
    (∀ e ∈ (runCalls AppState.initial nineDayCalls).entries,
      e.date = isoDate e.timestamp ∧ e.timestamp ≤ 693000000) ∧
    (getTimeRangeData (runCalls AppState.initial nineDayCalls).entries .week 693000000
      (-18000000) (-14400000)).map DayMetric.fullDate = [0, 1, 2, 3, 4, 5, 6, 7, 8] := by
  constructor
  · decide
  · decide

/-- An instant between the start of a window of at most `7 + j` days and `now`
falls on one of `8 + j` UTC days. -/
theorem week_window_dates (ts now tzaNow tzaStart j : Int)
    (hzone : tzaStart ≤ tzaNow + j * msPerDay)
    (h1 : cutoff .week now tzaNow tzaStart ≤ ts) (h2 : ts ≤ now) :
    isoDate now - 7 - j ≤ isoDate ts ∧ isoDate ts ≤ isoDate now := by
  simp only [cutoff, ranges, msPerDay] at h1 hzone
  simp only [isoDate, msPerDay]
  omega

theorem week_count_le (entries : List MoodEntry) (now tzaNow tzaStart : Int) (j : ℕ)
    (hdate : ∀ e ∈ entries, e.date = isoDate e.timestamp)
    (hpast : ∀ e ∈ entries, e.timestamp ≤ now)
    (hzone : tzaStart ≤ tzaNow + (j : Int) * msPerDay) :
    (getTimeRangeData entries .week now tzaNow tzaStart).length ≤ 8 + j := by
  have hnd : ((getTimeRangeData entries .week now tzaNow tzaStart).map
      DayMetric.fullDate).Nodup :=
    (getTimeRangeData_dates_perm entries .week now tzaNow tzaStart).nodup_iff.2
      (foldl_groupStep (inWindow .week now tzaNow tzaStart entries)).1
  have hsub : ((getTimeRangeData entries .week now tzaNow tzaStart).map
      DayMetric.fullDate).toFinset ⊆ Finset.Icc (isoDate now - 7 - j) (isoDate now) := by
    intro d hd
    rw [List.mem_toFinset, getTimeRangeData_dates] at hd
    obtain ⟨e, he, hw, rfl⟩ := hd
    rw [Finset.mem_Icc, hdate e he]
    exact week_window_dates e.timestamp now tzaNow tzaStart j hzone hw (hpast e he)
  have hcard := Finset.card_le_card hsub
  rw [List.toFinset_card_of_nodup hnd, List.length_map, Int.card_Icc] at hcard
  have hj : (isoDate now + 1 - (isoDate now - 7 - (j : Int))).toNat = 8 + j := by
    have h : isoDate now + 1 - (isoDate now - 7 - (j : Int)) = ((8 + j : ℕ) : Int) := by
      push_cast
      ring
    rw [h]
    exact Int.toNat_natCast _
  omega

/-- C3 (amended): for every entry collection whose entries carry the date of
their timestamp and are not stamped later than `now`, the week range returns
at most 8 day metrics when the zone offset at the start of the window is not
greater than at `now` (the window is then at most 7 times 24 hours, which
meet eight calendar days), and at most 9 when it is greater by at most a day
(the end of daylight saving inside the window). -/
theorem week_at_most_nine_days (entries : List MoodEntry) (now tzaNow tzaStart : Int)
    (hdate : ∀ e ∈ entries, e.date = isoDate e.timestamp)
    (hpast : ∀ e ∈ entries, e.timestamp ≤ now) :
    (tzaStart ≤ tzaNow → (getTimeRangeData entries .week now tzaNow tzaStart).length ≤ 8) ∧
    (tzaStart ≤ tzaNow + msPerDay →
      (getTimeRangeData entries .week now tzaNow tzaStart).length ≤ 9) := by
  constructor
  · intro hz
    exact week_count_le entries now tzaNow tzaStart 0 hdate hpast (by simpa using hz)
  · intro hz
    exact week_count_le entries now tzaNow tzaStart 1 hdate hpast (by simpa using hz)

/-- Witness of C3 (amended): the ten daily entries, `now` the instant of the
last, in a zone without a change of offset. -/
theorem week_at_most_nine_days_witness :
    (∀ e ∈ (runCalls AppState.initial tenDayCalls).entries, e.date = isoDate e.timestamp) ∧
    (∀ e ∈ (runCalls AppState.initial tenDayCalls).entries,
      e.timestamp ≤ 9 * 86400000 + 43200000) ∧
    (getTimeRangeData (runCalls AppState.initial tenDayCalls).entries .week
      (9 * 86400000 + 43200000) 0 0).length ≤ 8 :=
  ⟨by decide, by decide,
   (week_at_most_nine_days (runCalls AppState.initial tenDayCalls).entries
     (9 * 86400000 + 43200000) 0 0 (by decide) (by decide)).1 (le_refl 0)⟩

/-! ## Export filter -/

theorem getFilteredEntries_eq_filter (entries : List MoodEntry) (start stop : Option Int) :
    getFilteredEntries entries start stop =
      entries.filter (fun e =>
        decide ((∀ a, start = some a → a ≤ e.date) ∧ (∀ b, stop = some b → e.date ≤ b))) := by
  cases start <;> cases stop <;> simp [getFilteredEntries]

/-- The day numbers of the dates used below, and their agreement with
`isoDate` on the instant 2024-01-01T00:00:00Z. -/
theorem isoDay_values :
    isoDay 1970 1 1 = 0 ∧ isoDay 2024 1 1 = 19723 ∧ isoDay 2024 1 31 = 19753 ∧
    isoDay 2024 2 1 = 19754 ∧ isoDate 1704067200000 = isoDay 2024 1 1 := by
  decide

/-- C11: for every entry collection and every optional start and end date,
`getFilteredEntries` returns exactly the entries whose date is at least the
start date when one is given and at most the end date when one is given, in
store order and decided by the date alone; with both bounds absent it
returns the whole collection, of the same size; with the bounds 2024-01-01
and 2024-01-31 it keeps an entry dated 2024-01-31 and drops one dated
2024-02-01. -/
theorem getFilteredEntries_spec (entries : List MoodEntry) (start stop : Option Int) :
    (∀ e, e ∈ getFilteredEntries entries start stop ↔
      e ∈ entries ∧ (∀ a, start = some a → e.date ≥ a) ∧ (∀ b, stop = some b → e.date ≤ b)) ∧
    getFilteredEntries entries start stop =
      entries.filter (fun e =>
        decide ((∀ a, start = some a → a ≤ e.date) ∧ (∀ b, stop = some b → e.date ≤ b))) ∧
    (getFilteredEntries entries start stop).Sublist entries ∧
    getFilteredEntries entries none none = entries ∧
    (getFilteredEntries entries none none).length = entries.length ∧
    getFilteredEntries [entryOn (isoDay 2024 1 31) 600, entryOn (isoDay 2024 2 1) 600]
      (some (isoDay 2024 1 1)) (some (isoDay 2024 1 31)) = [entryOn (isoDay 2024 1 31) 600] := by
  refine ⟨?_, getFilteredEntries_eq_filter entries start stop, ?_, rfl, rfl, by decide⟩
  · intro e
    rw [getFilteredEntries_eq_filter, List.mem_filter]
    simp
  · rw [getFilteredEntries_eq_filter]
    exact List.filter_sublist _

/-! ## Entry store: frame and queries -/

/-- C13: for every accepted `addEntry` call the new collection is a
permutation of the old collection with the new record added: every entry
stored before is still there, unchanged, and the size grows by one. -/
theorem addEntry_keeps_entries (s : AppState) (now tz : Int)
    (hvalid : validate s.sleep s.weight = none) :
    (addEntry s now tz).entries.Perm (s.entries ++ [newEntry s now tz]) ∧
    (∀ e ∈ s.entries, e ∈ (addEntry s now tz).entries) ∧
    (addEntry s now tz).entries.length = s.entries.length + 1 := by
  have hperm := addEntry_perm s now tz hvalid
  refine ⟨hperm.trans (List.perm_append_singleton _ _).symm, ?_, ?_⟩
  · intro e he
    exact hperm.mem_iff.2 (List.mem_cons_of_mem _ he)
  · rw [hperm.length_eq, List.length_cons]

/-- Witness of C13: a call with an empty morning log on `medEntryState`. -/
theorem addEntry_keeps_entries_witness :
    validate medEntryState.sleep medEntryState.weight = none ∧
    (addEntry medEntryState 2000 0).entries.length = medEntryState.entries.length + 1 :=
  ⟨by decide, (addEntry_keeps_entries medEntryState 2000 0 (by decide)).2.2⟩

/-- C14: for every date and every entry collection, `getEntriesForDate` is a
permutation of the stored entries of that date, and of no other entry, in
ascending order of time. -/
theorem getEntriesForDate_spec (entries : List MoodEntry) (date : Int) :
    (getEntriesForDate entries date).Perm (entries.filter (fun e => decide (e.date = date))) ∧
    (∀ e, e ∈ getEntriesForDate entries date ↔ e ∈ entries ∧ e.date = date) ∧
    (getEntriesForDate entries date).Pairwise (fun a b => a.time ≤ b.time) := by
  refine ⟨List.perm_insertionSort _ _, ?_, List.sorted_insertionSort earliestTimeFirst _⟩
  intro e
  unfold getEntriesForDate
  rw [(List.perm_insertionSort _ _).mem_iff, List.mem_filter]
  simp

theorem setValues_foldl (xs seen : List Int) (hseen : seen.Nodup) :
    (xs.foldl (fun seen x => if x ∈ seen then seen else seen ++ [x]) seen).Nodup ∧
    ∀ d, d ∈ xs.foldl (fun seen x => if x ∈ seen then seen else seen ++ [x]) seen ↔
      d ∈ seen ∨ d ∈ xs := by
  induction xs generalizing seen with
  | nil => simp [hseen]
  | cons x rest ih =>
    rw [List.foldl_cons]
    by_cases hx : x ∈ seen
    · rw [if_pos hx]
      refine ⟨(ih seen hseen).1, fun d => ?_⟩
      rw [(ih seen hseen).2 d, List.mem_cons]
      constructor
      · rintro (h | h)
        · exact Or.inl h
        · exact Or.inr (Or.inr h)
      · rintro (h | h | h)
        · exact Or.inl h
        · exact Or.inl (h ▸ hx)
        · exact Or.inr h
    · rw [if_neg hx]
      have hnd : (seen ++ [x]).Nodup := by
        rw [List.nodup_append]
        refine ⟨hseen, List.nodup_singleton x, ?_⟩
        intro a ha hb
        rw [List.mem_singleton] at hb
        exact hx (hb ▸ ha)
      refine ⟨(ih _ hnd).1, fun d => ?_⟩
      rw [(ih _ hnd).2 d, List.mem_append, List.mem_singleton, List.mem_cons]
      tauto

/-- C15: for every entry collection, `getDatesWithEntries` contains every date
that some stored entry has and no other date, contains no date twice, and is
sorted strictly descending, the most recent date first. -/
theorem getDatesWithEntries_spec (entries : List MoodEntry) :
    (∀ d, d ∈ getDatesWithEntries entries ↔ ∃ e ∈ entries, e.date = d) ∧
    (getDatesWithEntries entries).Nodup ∧
    (getDatesWithEntries entries).Pairwise (fun a b => b < a) := by
  have hset := setValues_foldl (entries.map MoodEntry.date) [] List.nodup_nil
  have hnd : (getDatesWithEntries entries).Nodup :=
    (List.perm_insertionSort latestDateFirst _).nodup_iff.2 hset.1
  have hle : (getDatesWithEntries entries).Pairwise (fun a b => b ≤ a) :=
    List.sorted_insertionSort latestDateFirst _
  refine ⟨fun d => ?_, hnd, ?_⟩
  · unfold getDatesWithEntries setValues
    rw [(List.perm_insertionSort _ _).mem_iff, hset.2 d]
    simp
  · exact List.Pairwise.imp₂ (fun a b h1 h2 => lt_of_le_of_ne h1 (Ne.symm h2)) hle hnd

/-! ## Medication registry -/

/-- C16: for every state and every medication id, `removeMedication` leaves
the entry collection as it is, so every entry keeps its list of medication
names, also an entry on which the removed medication was selected: the entry
of `medEntryState` keeps the name "Lithium" after medication 1 is removed. -/
theorem removeMedication_keeps_entries (s : AppState) (id : Int) :
    (removeMedication s id).entries = s.entries ∧
    (removeMedication s id).entries.map MoodEntry.medications =
      s.entries.map MoodEntry.medications ∧
    (removeMedication s id).storedEntries = s.storedEntries ∧
    medEntryState.entries.map MoodEntry.medications = [["Lithium"]] ∧
    (removeMedication medEntryState 1).medications = [] ∧
    (removeMedication medEntryState 1).entries.map MoodEntry.medications = [["Lithium"]] := by
  have h : (removeMedication s id).entries = s.entries ∧
      (removeMedication s id).storedEntries = s.storedEntries := by
    unfold removeMedication persistMeds showSaveMessage
    split <;> exact ⟨rfl, rfl⟩
  refine ⟨h.1, by rw [h.1], h.2, by decide, by decide, by decide⟩

/-- Counterexample to C12 as stated: after " Lithium " is added the registry
and its stored copy hold the one record; after that record is removed the
registry is empty and the stored copy still holds it. -/
theorem removeMedication_last_not_persisted :
    oneMedState.medications = [{ id := 1, name := "Lithium" }] ∧
    oneMedState.storedMeds = some [{ id := 1, name := "Lithium" }] ∧
    (removeMedication oneMedState 1).medications = [] ∧
    (removeMedication oneMedState 1).storedMeds = some [{ id := 1, name := "Lithium" }] ∧
    (removeMedication oneMedState 1).storedMeds ≠
      some (removeMedication oneMedState 1).medications := by
  decide

theorem persistMeds_of_nonempty (t : AppState) (h : t.medications ≠ []) :
    (persistMeds t).storedMeds = some (persistMeds t).medications := by
  unfold persistMeds
  rw [if_pos (List.length_pos.2 h)]

theorem persistMeds_of_empty (t : AppState) (h : t.medications = []) :
    persistMeds t = t := by
  unfold persistMeds
  rw [if_neg (by simp [h])]

theorem persistMeds_medications (t : AppState) : (persistMeds t).medications = t.medications := by
  unfold persistMeds
  split <;> rfl

/-- C12 (amended): after every mutation that leaves the collection non-empty
(an accepted `addEntry`, an accepted `addMedication`, a `removeMedication`
that leaves a medication) the stored copy of that collection equals the
collection in memory; when `removeMedication` empties the registry nothing
is written and the stored copy is what it was before the call. -/
theorem mutation_persisted_when_nonempty (s : AppState) (now tz id : Int) :
    (validate s.sleep s.weight = none →
      (addEntry s now tz).storedEntries = some (addEntry s now tz).entries) ∧
    (jsTrim s.newMedName ≠ "" →
      (addMedication s now).storedMeds = some (addMedication s now).medications) ∧
    ((removeMedication s id).medications ≠ [] →
      (removeMedication s id).storedMeds = some (removeMedication s id).medications) ∧
    ((removeMedication s id).medications = [] →
      (removeMedication s id).storedMeds = s.storedMeds) := by
  refine ⟨?_, ?_, ?_, ?_⟩
  · intro hv
    have hne : (s.entries ++ [newEntry s now tz]).insertionSort newestFirst ≠ [] := by
      intro h0
      have hlen := (List.perm_insertionSort newestFirst (s.entries ++ [newEntry s now tz])).length_eq
      rw [h0] at hlen
      simp at hlen
    unfold addEntry persistEntries
    rw [hv]
    dsimp only
    rw [if_pos (List.length_pos.2 hne)]
  · intro hname
    unfold addMedication
    rw [if_pos hname]
    apply persistMeds_of_nonempty
    simp [showSaveMessage]
  · intro hne
    unfold removeMedication at hne ⊢
    apply persistMeds_of_nonempty
    rw [persistMeds_medications] at hne
    exact hne
  · intro hempty
    unfold removeMedication at hempty ⊢
    rw [persistMeds_medications] at hempty
    rw [persistMeds_of_empty _ hempty]
    rfl

theorem rdropWhile_append_rtakeWhile (p : Char → Bool) (l : List Char) :
    l.rdropWhile p ++ l.rtakeWhile p = l := by
  unfold List.rdropWhile List.rtakeWhile
  rw [← List.reverse_append, List.takeWhile_append_dropWhile, List.reverse_reverse]

theorem trimChars_eq_nil_iff (cs : List Char) :
    trimChars cs = [] ↔ ∀ c ∈ cs, isJsWhitespace c = true := by
  unfold trimChars
  rw [List.rdropWhile_eq_nil_iff]
  constructor
  · intro h
    by_cases hnil : cs.dropWhile isJsWhitespace = []
    · exact List.dropWhile_eq_nil_iff.1 hnil
    · have h1 := List.head_dropWhile_not isJsWhitespace cs hnil
      have h2 := h _ (List.head_mem hnil)
      rw [h1] at h2
      exact absurd h2 (by decide)
  · intro h x hx
    rw [List.dropWhile_eq_nil_iff.2 h] at hx
    exact absurd hx (List.not_mem_nil x)

theorem trimChars_decompose (cs : List Char) :
    cs = cs.takeWhile isJsWhitespace ++ trimChars cs ++
      (cs.dropWhile isJsWhitespace).rtakeWhile isJsWhitespace := by
  unfold trimChars
  rw [List.append_assoc, rdropWhile_append_rtakeWhile, List.takeWhile_append_dropWhile]

theorem trimChars_head (cs : List Char) (c : Char) (h : (trimChars cs).head? = some c) :
    isJsWhitespace c = false := by
  have hne : trimChars cs ≠ [] := by
    intro h0
    rw [h0] at h
    exact absurd h (by simp)
  have hpre : trimChars cs <+: cs.dropWhile isJsWhitespace := List.rdropWhile_prefix isJsWhitespace _
  have hdne : cs.dropWhile isJsWhitespace ≠ [] := by
    intro h0
    rw [h0] at hpre
    exact hne (List.prefix_nil.1 hpre)
  have hhead := hpre.head hne
  have hc : (trimChars cs).head hne = c := by
    rw [List.head?_eq_head hne] at h
    exact Option.some.inj h
  rw [← hc, hhead]
  exact List.head_dropWhile_not isJsWhitespace cs hdne

theorem trimChars_getLast (cs : List Char) (c : Char) (h : (trimChars cs).getLast? = some c) :
    isJsWhitespace c = false := by
  have hne : trimChars cs ≠ [] := by
    intro h0
    rw [h0] at h
    exact absurd h (by simp)
  have hc : (trimChars cs).getLast hne = c := by
    rw [List.getLast?_eq_getLast _ hne] at h
    exact Option.some.inj h
  have hlast := List.rdropWhile_last_not (p := isJsWhitespace)
    (l := cs.dropWhile isJsWhitespace) hne
  rw [← hc]
  simpa using hlast

theorem jsTrim_eq_empty_iff (text : String) :
    jsTrim text = "" ↔ ∀ c ∈ text.data, isJsWhitespace c = true := by
  rw [← trimChars_eq_nil_iff]
  unfold jsTrim
  constructor
  · intro h
    exact congrArg String.data h
  · intro h
    rw [h]

theorem addMedication_of_blank (s : AppState) (now : Int) (h : jsTrim s.newMedName = "") :
    addMedication s now = s := by
  unfold addMedication
  rw [if_neg (not_not.2 h)]

theorem addMedication_of_name (s : AppState) (now : Int) (h : jsTrim s.newMedName ≠ "") :
    (addMedication s now).medications =
      s.medications ++ [{ id := now, name := jsTrim s.newMedName }] := by
  unfold addMedication persistMeds showSaveMessage
  rw [if_pos h]
  split <;> rfl

/-- C17: adding a medication whose name is empty or consists of white space
only changes nothing, and only then is the registry unchanged; otherwise the
registry gains one record, appended at the end after the unchanged existing
records, whose name is the input without its leading and trailing white
space: the input is that name between two runs of white space, the name is
not empty and neither starts nor ends with white space. -/
theorem addMedication_spec (s : AppState) (now : Int) :
    ((∀ c ∈ s.newMedName.data, isJsWhitespace c = true) → addMedication s now = s) ∧
    (¬ (∀ c ∈ s.newMedName.data, isJsWhitespace c = true) →
      (addMedication s now).medications =
        s.medications ++ [{ id := now, name := jsTrim s.newMedName }] ∧
      jsTrim s.newMedName ≠ "") ∧
    ((addMedication s now).medications = s.medications ↔
      ∀ c ∈ s.newMedName.data, isJsWhitespace c = true) ∧
    (∃ pre post, s.newMedName.data = pre ++ (jsTrim s.newMedName).data ++ post ∧
      (∀ c ∈ pre, isJsWhitespace c = true) ∧ (∀ c ∈ post, isJsWhitespace c = true)) ∧
    (∀ c, (jsTrim s.newMedName).data.head? = some c → isJsWhitespace c = false) ∧
    (∀ c, (jsTrim s.newMedName).data.getLast? = some c → isJsWhitespace c = false) ∧
    (addMedication { AppState.initial with newMedName := " \t " } 1).medications = [] ∧
    (addMedication { AppState.initial with newMedName := " Lithium " } 1).medications =
      [{ id := 1, name := "Lithium" }] := by
  refine ⟨?_, ?_, ?_, ?_, ?_, ?_, by decide, by decide⟩
  · intro h
    exact addMedication_of_blank s now ((jsTrim_eq_empty_iff _).2 h)
  · intro h
    have hne : jsTrim s.newMedName ≠ "" := fun h0 => h ((jsTrim_eq_empty_iff _).1 h0)
    exact ⟨addMedication_of_name s now hne, hne⟩
  · constructor
    · intro h
      by_contra hblank
      have hne : jsTrim s.newMedName ≠ "" := fun h0 => hblank ((jsTrim_eq_empty_iff _).1 h0)
      have hlen := congrArg List.length (addMedication_of_name s now hne)
      rw [h] at hlen
      simp at hlen
    · intro h
      rw [addMedication_of_blank s now ((jsTrim_eq_empty_iff _).2 h)]
  · exact ⟨_, _, trimChars_decompose s.newMedName.data,
      fun c hc => List.mem_takeWhile_imp hc, fun c hc => List.mem_rtakeWhile_imp hc⟩
  · exact trimChars_head s.newMedName.data
  · exact trimChars_getLast s.newMedName.data

/-! ## Reminders -/

/-- C18, evaluated where the code departs from it: with notifications
enabled and the reminder times 09:00, 14:00, 19:00, removing 14:00 leaves the
set 09:00, 19:00 (also in storage) and hands over the tag of the set before
the change, "09:00,14:00,19:00"; adding 10:30 likewise hands over the tag of
the set without 10:30. -/
theorem reminder_tag_is_stale :
    (removeReminderTime enabledReminders "14:00").reminderTimes = ["09:00", "19:00"] ∧
    (removeReminderTime enabledReminders "14:00").storedReminders = some ["09:00", "19:00"] ∧
    (removeReminderTime enabledReminders "14:00").sentTags = ["09:00,14:00,19:00"] ∧
    (addReminderTime { enabledReminders with newReminderTime := "10:30" }).reminderTimes =
      ["09:00", "10:30", "14:00", "19:00"] ∧
    (addReminderTime { enabledReminders with newReminderTime := "10:30" }).sentTags =
      ["09:00,14:00,19:00"] := by
  decide

end MoodTracker
